import Mathlib

/-!
# Switch-Fightstick: the scripted playback core of `Joystick.c`

A shallow embedding of the report generator `GetNextReport` (Joystick.c, lines 271-322)
together with the globals it works on (lines 29-56), followed by theorems about the
cadence of the playback, the startup sequence, the translation of instructions into
reports, the replay cache, the packed script record and the behaviour at the end of
the script.

The C globals `state`, `last_report`, `reps`, `step` and `duration` become the fields
of the record `Playback`; one call of `GetNextReport` becomes a function from the
record before the call to the record after it and the report written to `ReportData`.
`GetNextReport` counts `step` in natural numbers; `GetNextReport16` is the same function
with `step` in the range of the 16-bit `int`, and the two agree until `step` is
incremented at `INT_MAX`.
-/

namespace Joystick

/-! ## Data model -/

/-- The repeat factor, `#define REPS 4` (line 29). -/
def REPS : Nat := 4

/-- The playback states, `State_t` (lines 31-35). -/
inductive State_t where
  | SYNC
  | WAIT
  | RUN
deriving DecidableEq

/-- The packed script record, `Instruction` (lines 44-48): `buttons` is a 12-bit
bit-field, `hat` a 4-bit bit-field and `duration` a `uint8_t`, so each field is a
number below the bound of its width. -/
structure Instruction where
  buttons : Fin 4096
  hat : Fin 16
  duration : Fin 256
deriving DecidableEq

/-- A write of the three values `b`, `h`, `d` to the fields of an `Instruction`, as the
initialisers `{ b, h, d }` of lines 60-119 do it: an unsigned bit-field of width `w`
keeps the value modulo `2 ^ w`, so `buttons` keeps twelve bits, `hat` four and
`duration` eight (lines 37-48). -/
def storeInstruction (b h d : Nat) : Instruction :=
  { buttons := ⟨b % 4096, Nat.mod_lt b (by decide)⟩,
    hat := ⟨h % 16, Nat.mod_lt h (by decide)⟩,
    duration := ⟨d % 256, Nat.mod_lt d (by decide)⟩ }

/-- Modelled from the spec: the type `USB_JoystickReport_Input_t` is declared in
`Joystick.h`, which is not among the sources. The report is a button bit-field of
at least 16 bits, one direction value and four 8-bit axis values; these are the six
fields that `GetNextReport` writes by name (lines 282-286, 301-302). Any further
field of the C structure is cleared by the `memset` of line 281 and never written. -/
structure USB_JoystickReport_Input_t where
  Button : Nat
  HAT : Nat
  LX : Nat
  LY : Nat
  RX : Nat
  RY : Nat
deriving DecidableEq

/-- Modelled from the spec: the constants `STICK_CENTER`, `HAT_*` and `SWITCH_*` are
declared in `Joystick.h`, which is not among the sources. They are taken as parameters.
The neutral axis value fits the 8-bit axis fields, a direction fits the four bits of
`Instruction.hat`, and the button masks used by the script fit the twelve bits of
`Instruction.buttons` (lines 37-43). -/
structure Header where
  STICK_CENTER : Fin 256
  HAT_TOP : Fin 16
  HAT_RIGHT : Fin 16
  HAT_BOTTOM_RIGHT : Fin 16
  HAT_BOTTOM : Fin 16
  HAT_LEFT : Fin 16
  HAT_CENTER : Fin 16
  SWITCH_NONE : Fin 4096
  SWITCH_Y : Fin 4096
  SWITCH_B : Fin 4096
  SWITCH_L : Fin 4096
  SWITCH_R : Fin 4096
  SWITCH_PLUS : Fin 4096
deriving DecidableEq

/-- The mutable globals of lines 50-56, with the three `int` counters as natural
numbers. `reps` and `duration` stay small on every run from the initial globals
(`counters_bounded` below: `reps ≤ REPS`, `duration < 255`), so no operation on them
leaves the range of `int`. `step` is bounded only by the number of calls: behind the
end of the table it keeps growing, and the C variable overflows when line 307
increments it at `INT_MAX`. This record and `GetNextReport` below therefore follow
the code as long as `step` has not been incremented at `INT_MAX`; `Playback16` and
`GetNextReport16` below follow it through the overflow, and `runCalls16_eq` states that
the two agree up to there. -/
structure Playback where
  state : State_t
  last_report : USB_JoystickReport_Input_t
  reps : Nat
  step : Nat
  duration : Nat
deriving DecidableEq

/-- A zero-filled report: the content of the global `last_report` at program start
and of `ReportData` right after the `memset` of line 281. -/
def zeroReport : USB_JoystickReport_Input_t :=
  { Button := 0, HAT := 0, LX := 0, LY := 0, RX := 0, RY := 0 }

/-- The globals at program start (lines 50-56): `state = SYNC`, `last_report`
zero-initialised, `reps = step = duration = 0`. -/
def init : Playback :=
  { state := State_t.SYNC, last_report := zeroReport, reps := 0, step := 0, duration := 0 }

/-- The report after lines 281-286: everything cleared, the four axes at
`STICK_CENTER` and the hat at `HAT_CENTER`. -/
def clearedReport (K : Header) : USB_JoystickReport_Input_t :=
  { zeroReport with
    LX := K.STICK_CENTER.val, LY := K.STICK_CENTER.val,
    RX := K.STICK_CENTER.val, RY := K.STICK_CENTER.val,
    HAT := K.HAT_CENTER.val }

/-- The report of the `RUN` case after lines 301-302: the cleared report with `Button`
and `HAT` overwritten from the instruction (the 12-bit mask is zero-extended into the
wider `Button` field). -/
def runReport (K : Header) (ins : Instruction) : USB_JoystickReport_Input_t :=
  { clearedReport K with Button := ins.buttons.val, HAT := ins.hat.val }

/-- The read `script[i]` of lines 301-306. The C code does not check `i` before the
read: inside the table the read gives the entry, at `i = len + k` it gives whatever
record lies in memory behind the table, `past k`. C gives such a read no defined
value, so `past` is a parameter and the theorems hold for every `past`; whether a
read is inside the table is the question whether the checked lookup `script[i]?` has
an entry. -/
def readScript (script : List Instruction) (past : Nat → Instruction) (i : Nat) :
    Instruction :=
  match script[i]? with
  | some ins => ins
  | none => past (i - script.length)

/-! ## The report generator -/

/-- One call of `GetNextReport` (lines 271-322): the globals after the call and the
report left in `ReportData`. The increment of line 307 is the successor of a natural
number here; `GetNextReport16` below has the increment of the 16-bit `int`. -/
def GetNextReport (K : Header) (script : List Instruction) (past : Nat → Instruction)
    (s : Playback) : Playback × USB_JoystickReport_Input_t :=
  if 0 < s.reps then
    -- lines 274-278: repeat the last report
    ({ s with reps := s.reps - 1 }, s.last_report)
  else
    match s.state with
    | State_t.SYNC =>
      ({ s with state := State_t.WAIT, last_report := clearedReport K, reps := REPS },
        clearedReport K)
    | State_t.WAIT =>
      ({ s with state := State_t.RUN, last_report := clearedReport K, reps := REPS },
        clearedReport K)
    | State_t.RUN =>
      let ins := readScript script past s.step
      let r := runReport K ins
      -- lines 304-309
      let step := if s.duration + 1 ≥ ins.duration.val then s.step + 1 else s.step
      let duration := if s.duration + 1 ≥ ins.duration.val then 0 else s.duration + 1
      if step ≥ script.length then
        -- lines 311-314: end of script, return before the cache is written
        ({ s with step := step, duration := duration }, r)
      else
        -- lines 320-321
        ({ s with step := step, duration := duration, last_report := r, reps := REPS }, r)

/-- The globals after `n` consecutive calls of `GetNextReport` that start at `s`. -/
def runCalls (K : Header) (script : List Instruction) (past : Nat → Instruction) :
    Nat → Playback → Playback
  | 0, s => s
  | n + 1, s => (GetNextReport K script past (runCalls K script past n s)).1

/-- The report returned by call number `n + 1` of a run of consecutive calls that
starts at `s`. -/
def nthReport (K : Header) (script : List Instruction) (past : Nat → Instruction)
    (n : Nat) (s : Playback) : USB_JoystickReport_Input_t :=
  (GetNextReport K script past (runCalls K script past n s)).2

/-! ## The report generator with the range of `int step` -/

/-- The largest value of the C type `int` on the target of the source, an AVR
microcontroller (lines 140-153 program its registers), where `int` has 16 bits. -/
def INT_MAX : Int := 32767

/-- The smallest value of the 16-bit `int`. -/
def INT_MIN : Int := -32768

/-- The globals of lines 50-56 with `step` as a value of the 16-bit `int`. The counters
`reps` and `duration` never leave the range from 0 to 255 and stay natural numbers. -/
structure Playback16 where
  state : State_t
  last_report : USB_JoystickReport_Input_t
  reps : Nat
  step : Int
  duration : Nat
deriving DecidableEq

/-- The globals at program start (lines 50-56). -/
def init16 : Playback16 :=
  { state := State_t.SYNC, last_report := zeroReport, reps := 0, step := 0, duration := 0 }

/-- The increment `step++` of line 307 on the 16-bit `int`. At `INT_MAX` the addition
overflows; C leaves the result undefined, and the two-byte addition of the target
wraps around to `INT_MIN`. -/
def incrStep (x : Int) : Int :=
  if x = INT_MAX then INT_MIN else x + 1

/-- The read `script[i]` of lines 301-306 for an `int` index: inside the table the
entry, at `i = len + k` the record `past k` behind the table, and at the negative
index `i = -(k + 1)` the record `front k` in front of the table. -/
def readScript16 (script : List Instruction) (past front : Nat → Instruction) (i : Int) :
    Instruction :=
  if i < 0 then front (-(i + 1)).toNat else readScript script past i.toNat

/-- One call of `GetNextReport` (lines 271-322) with `step` in the range of the 16-bit
`int`: the same statements as in `GetNextReport`, with the increment `incrStep` at
line 307 and the comparison of line 311 between `int` values, the right one being the
number of entries of the table cast to `int` (a table on the target has fewer than
`INT_MAX` entries). -/
def GetNextReport16 (K : Header) (script : List Instruction)
    (past front : Nat → Instruction) (s : Playback16) :
    Playback16 × USB_JoystickReport_Input_t :=
  if 0 < s.reps then
    -- lines 274-278: repeat the last report
    ({ s with reps := s.reps - 1 }, s.last_report)
  else
    match s.state with
    | State_t.SYNC =>
      ({ s with state := State_t.WAIT, last_report := clearedReport K, reps := REPS },
        clearedReport K)
    | State_t.WAIT =>
      ({ s with state := State_t.RUN, last_report := clearedReport K, reps := REPS },
        clearedReport K)
    | State_t.RUN =>
      let ins := readScript16 script past front s.step
      let r := runReport K ins
      -- lines 304-309
      let step := if s.duration + 1 ≥ ins.duration.val then incrStep s.step else s.step
      let duration := if s.duration + 1 ≥ ins.duration.val then 0 else s.duration + 1
      if step ≥ (script.length : Int) then
        -- lines 311-314: end of script, return before the cache is written
        ({ s with step := step, duration := duration }, r)
      else
        -- lines 320-321
        ({ s with step := step, duration := duration, last_report := r, reps := REPS }, r)

/-- The globals after `n` consecutive calls of `GetNextReport16` that start at `s`. -/
def runCalls16 (K : Header) (script : List Instruction) (past front : Nat → Instruction) :
    Nat → Playback16 → Playback16
  | 0, s => s
  | n + 1, s => (GetNextReport16 K script past front (runCalls16 K script past front n s)).1

/-- The report returned by call number `n + 1` of a run of consecutive calls of
`GetNextReport16` that starts at `s`. -/
def nthReport16 (K : Header) (script : List Instruction) (past front : Nat → Instruction)
    (n : Nat) (s : Playback16) : USB_JoystickReport_Input_t :=
  (GetNextReport16 K script past front (runCalls16 K script past front n s)).2

/-- The globals with a natural number for `step`, read as globals with an `int` for
`step`. -/
def toPlayback16 (s : Playback) : Playback16 :=
  { state := s.state, last_report := s.last_report, reps := s.reps,
    step := (s.step : Int), duration := s.duration }

/-! ## The script table -/

/-- The table `script` of lines 58-120, built from the constants of the header. -/
def script (K : Header) : List Instruction :=
  [ -- Startup
    { buttons := K.SWITCH_NONE, hat := K.HAT_CENTER, duration := 4 },
    { buttons := K.SWITCH_L + K.SWITCH_R, hat := K.HAT_CENTER, duration := 3 },
    { buttons := K.SWITCH_NONE, hat := K.HAT_CENTER, duration := 4 },
    -- Unpause
    { buttons := K.SWITCH_PLUS, hat := K.HAT_CENTER, duration := 3 },
    -- Run right and open door
    { buttons := K.SWITCH_Y, hat := K.HAT_RIGHT, duration := 17 },
    { buttons := K.SWITCH_Y, hat := K.HAT_TOP, duration := 3 },
    { buttons := K.SWITCH_NONE, hat := K.HAT_CENTER, duration := 20 },
    -- Wait descend
    { buttons := K.SWITCH_NONE, hat := K.HAT_CENTER, duration := 90 },
    -- Run right and open second door
    { buttons := K.SWITCH_Y, hat := K.HAT_RIGHT, duration := 15 },
    { buttons := K.SWITCH_Y, hat := K.HAT_TOP, duration := 3 },
    { buttons := K.SWITCH_NONE, hat := K.HAT_CENTER, duration := 50 },
    { buttons := K.SWITCH_Y, hat := K.HAT_RIGHT, duration := 13 },
    { buttons := K.SWITCH_Y, hat := K.HAT_BOTTOM_RIGHT, duration := 1 },
    -- First Jump (Spines)
    { buttons := K.SWITCH_Y + K.SWITCH_B, hat := K.HAT_BOTTOM_RIGHT, duration := 4 },
    { buttons := K.SWITCH_Y, hat := K.HAT_BOTTOM_RIGHT, duration := 2 },
    { buttons := K.SWITCH_Y, hat := K.HAT_BOTTOM, duration := 4 },
    { buttons := K.SWITCH_Y, hat := K.HAT_RIGHT, duration := 10 },
    -- Second Jump (To First P-Switch)
    { buttons := K.SWITCH_Y + K.SWITCH_B, hat := K.HAT_CENTER, duration := 4 },
    { buttons := K.SWITCH_Y + K.SWITCH_B, hat := K.HAT_RIGHT, duration := 4 },
    { buttons := K.SWITCH_Y, hat := K.HAT_RIGHT, duration := 1 },
    { buttons := K.SWITCH_NONE, hat := K.HAT_CENTER, duration := 5 },
    -- 1st P-Switch Jump (To Second P-Switch)
    { buttons := K.SWITCH_Y + K.SWITCH_B, hat := K.HAT_RIGHT, duration := 16 },
    { buttons := K.SWITCH_Y, hat := K.HAT_CENTER, duration := 4 },
    -- 2nd P-Switch (To platform)
    { buttons := K.SWITCH_Y + K.SWITCH_B, hat := K.HAT_LEFT, duration := 8 },
    { buttons := K.SWITCH_Y, hat := K.HAT_CENTER, duration := 9 },
    -- 1st Jump from 1st Platform
    { buttons := K.SWITCH_Y + K.SWITCH_B, hat := K.HAT_CENTER, duration := 4 },
    { buttons := K.SWITCH_Y + K.SWITCH_B, hat := K.HAT_LEFT, duration := 5 },
    { buttons := K.SWITCH_Y, hat := K.HAT_LEFT, duration := 4 },
    { buttons := K.SWITCH_Y, hat := K.HAT_RIGHT, duration := 8 },
    { buttons := K.SWITCH_Y, hat := K.HAT_CENTER, duration := 7 },
    -- 2nd Jump from 1st Platform
    { buttons := K.SWITCH_Y + K.SWITCH_B, hat := K.HAT_LEFT, duration := 8 },
    { buttons := K.SWITCH_Y, hat := K.HAT_LEFT, duration := 11 },
    -- Jump from 2nd platform
    { buttons := K.SWITCH_Y + K.SWITCH_B, hat := K.HAT_LEFT, duration := 16 },
    { buttons := K.SWITCH_Y, hat := K.HAT_LEFT, duration := 4 },
    -- Jump from Shell
    { buttons := K.SWITCH_Y + K.SWITCH_B, hat := K.HAT_LEFT, duration := 50 },
    { buttons := K.SWITCH_Y, hat := K.HAT_RIGHT, duration := 18 },
    -- 1st Jump from red block into question block
    { buttons := K.SWITCH_Y + K.SWITCH_B, hat := K.HAT_RIGHT, duration := 1 },
    { buttons := K.SWITCH_Y, hat := K.HAT_RIGHT, duration := 4 },
    { buttons := K.SWITCH_Y, hat := K.HAT_LEFT, duration := 4 },
    -- 2st Jump from red block into higher level
    { buttons := K.SWITCH_Y + K.SWITCH_B, hat := K.HAT_LEFT, duration := 25 },
    { buttons := K.SWITCH_PLUS, hat := K.HAT_CENTER, duration := 3 },
    -- the closing idle entries, lines 117-119
    { buttons := K.SWITCH_NONE, hat := K.HAT_CENTER, duration := 0xFF },
    { buttons := K.SWITCH_NONE, hat := K.HAT_CENTER, duration := 0xFF },
    { buttons := K.SWITCH_NONE, hat := K.HAT_CENTER, duration := 0xFF } ]

/-- The number of time units the playback spends on a list of instructions: an
instruction is held until the incremented counter of line 304 reaches its duration
(line 306), which takes `duration` fresh calls, and one fresh call when the duration
is zero. -/
def timeUnits : List Instruction → Nat
  | [] => 0
  | ins :: rest => max ins.duration.val 1 + timeUnits rest

/-! ## A table with a zero duration replaced -/

/-- The instruction with a duration of 0 replaced by 1; any other instruction is left
as it is. -/
def durationOne (ins : Instruction) : Instruction :=
  if ins.duration.val = 0 then { ins with duration := 1 } else ins

/-- The table with the duration of entry `j` replaced by 1 if it is 0. -/
def replaceZeroAt : Nat → List Instruction → List Instruction
  | _, [] => []
  | 0, ins :: rest => durationOne ins :: rest
  | j + 1, ins :: rest => ins :: replaceZeroAt j rest

/-! ## Concrete inputs used for evaluation -/

/-- The values of the Pokken pad header: `STICK_CENTER = 128`, the hat values
`HAT_TOP = 0`, `HAT_RIGHT = 2`, `HAT_BOTTOM_RIGHT = 3`, `HAT_BOTTOM = 4`, `HAT_LEFT = 6`,
`HAT_CENTER = 8`, and the button masks `SWITCH_Y = 0x01`, `SWITCH_B = 0x02`,
`SWITCH_L = 0x10`, `SWITCH_R = 0x20`, `SWITCH_PLUS = 0x200`, `SWITCH_NONE = 0`. -/
def pokken : Header :=
  { STICK_CENTER := 128,
    HAT_TOP := 0, HAT_RIGHT := 2, HAT_BOTTOM_RIGHT := 3, HAT_BOTTOM := 4, HAT_LEFT := 6,
    HAT_CENTER := 8,
    SWITCH_NONE := 0, SWITCH_Y := 0x01, SWITCH_B := 0x02, SWITCH_L := 0x10,
    SWITCH_R := 0x20, SWITCH_PLUS := 0x200 }

/-- A memory behind the table that holds zero bytes. -/
def zeroPast : Nat → Instruction :=
  fun _ => { buttons := 0, hat := 0, duration := 0 }

/-- A memory behind the table that holds `0xFF` bytes. -/
def onesPast : Nat → Instruction :=
  fun _ => { buttons := 0xFFF, hat := 0xF, duration := 0xFF }

/-- The scenario script: one instruction `{ SWITCH_PLUS, HAT_CENTER, 3 }` (with
`SWITCH_PLUS = 0x200`) followed by the three idle entries that close the table of
lines 117-119. -/
def plusScript : List Instruction :=
  [ { buttons := 0x200, hat := 8, duration := 3 },
    { buttons := 0, hat := 8, duration := 0xFF },
    { buttons := 0, hat := 8, duration := 0xFF },
    { buttons := 0, hat := 8, duration := 0xFF } ]

/-- A table of the single instruction `{ SWITCH_PLUS, HAT_CENTER, 3 }`. -/
def singleScript : List Instruction :=
  [ { buttons := 0x200, hat := 8, duration := 3 } ]

/-- A table whose first instruction has duration zero, closed by an idle entry. -/
def zeroDurationScript : List Instruction :=
  [ { buttons := 0x200, hat := 8, duration := 0 },
    { buttons := 0, hat := 8, duration := 0xFF } ]

/-! ## Basic facts about one call and about runs of calls -/

theorem GetNextReport_replay (K : Header) (script : List Instruction)
    (past : Nat → Instruction) (s : Playback) (h : 0 < s.reps) :
    GetNextReport K script past s = ({ s with reps := s.reps - 1 }, s.last_report) := by
  simp [GetNextReport, h]

theorem runCalls_succ (K : Header) (script : List Instruction) (past : Nat → Instruction)
    (n : Nat) (s : Playback) :
    runCalls K script past (n + 1) s
      = (GetNextReport K script past (runCalls K script past n s)).1 := rfl

theorem runCalls_add (K : Header) (script : List Instruction) (past : Nat → Instruction)
    (a b : Nat) (s : Playback) :
    runCalls K script past (a + b) s
      = runCalls K script past b (runCalls K script past a s) := by
  induction b with
  | zero => rfl
  | succ b ih => rw [← Nat.add_assoc, runCalls_succ, runCalls_succ, ih]

theorem nthReport_add (K : Header) (script : List Instruction) (past : Nat → Instruction)
    (a b : Nat) (s : Playback) :
    nthReport K script past (a + b) s
      = nthReport K script past b (runCalls K script past a s) := by
  unfold nthReport
  rw [runCalls_add]

theorem nthReport_eq (K : Header) (script : List Instruction) (past : Nat → Instruction)
    (n : Nat) (s : Playback) :
    nthReport K script past n s
      = (GetNextReport K script past (runCalls K script past n s)).2 := rfl

/-- While replays are pending, `k` calls only count `reps` down by `k`. -/
theorem runCalls_replay (K : Header) (script : List Instruction) (past : Nat → Instruction)
    (s : Playback) (k : Nat) (hk : k ≤ s.reps) :
    runCalls K script past k s = { s with reps := s.reps - k } := by
  induction k with
  | zero => rfl
  | succ k ih =>
    rw [runCalls_succ, ih (by omega), GetNextReport_replay _ _ _ _ (by show 0 < s.reps - k; omega)]
    show ({ s with reps := s.reps - k - 1 } : Playback) = _
    congr 1

/-- While replays are pending, every call returns the cached report. -/
theorem nthReport_replay (K : Header) (script : List Instruction) (past : Nat → Instruction)
    (s : Playback) (k : Nat) (hk : k < s.reps) :
    nthReport K script past k s = s.last_report := by
  unfold nthReport
  rw [runCalls_replay K script past s k (by omega),
    GetNextReport_replay _ _ _ _ (by show 0 < s.reps - k; omega)]

/-- A fresh call that fills the cache is followed by `REPS` replays: the globals
after `j + 1` calls are those after the fresh call with `reps` counted down by `j`. -/
theorem runCalls_block (K : Header) (script : List Instruction) (past : Nat → Instruction)
    (s : Playback) (hc : (GetNextReport K script past s).1.reps = REPS)
    (j : Nat) (hj : j ≤ REPS) :
    runCalls K script past (j + 1) s
      = { (GetNextReport K script past s).1 with reps := REPS - j } := by
  rw [Nat.add_comm, runCalls_add]
  show runCalls K script past j (GetNextReport K script past s).1 = _
  rw [runCalls_replay _ _ _ _ _ (by omega), hc]

/-- A fresh call that fills the cache with its report is followed by `REPS` calls
that return the same report. -/
theorem nthReport_block (K : Header) (script : List Instruction) (past : Nat → Instruction)
    (s : Playback) (hc : (GetNextReport K script past s).1.reps = REPS)
    (hl : (GetNextReport K script past s).1.last_report = (GetNextReport K script past s).2)
    (j : Nat) (hj : j ≤ REPS) :
    nthReport K script past j s = (GetNextReport K script past s).2 := by
  cases j with
  | zero => rfl
  | succ j =>
    rw [Nat.add_comm, nthReport_add]
    show nthReport K script past j (GetNextReport K script past s).1 = _
    rw [nthReport_replay _ _ _ _ _ (by omega), hl]

theorem readScript_inside (script : List Instruction) (past : Nat → Instruction)
    (i : Nat) (ins : Instruction) (h : script[i]? = some ins) :
    readScript script past i = ins := by
  simp [readScript, h]

theorem lt_length_of_getElem? (script : List Instruction) (i : Nat) (ins : Instruction)
    (h : script[i]? = some ins) : i < script.length := by
  rcases Nat.lt_or_ge i script.length with hlt | hge
  · exact hlt
  · rw [List.getElem?_eq_none hge] at h
    cases h

theorem readScript_outside (script : List Instruction) (past : Nat → Instruction)
    (i : Nat) (h : script.length ≤ i) :
    readScript script past i = past (i - script.length) := by
  simp [readScript, List.getElem?_eq_none h]

/-- The fresh call of the `RUN` case, written out (lines 280-321). -/
theorem GetNextReport_run (K : Header) (script : List Instruction)
    (past : Nat → Instruction) (s : Playback) (hr : s.reps = 0)
    (hs : s.state = State_t.RUN) :
    GetNextReport K script past s
      = (if (if s.duration + 1 ≥ (readScript script past s.step).duration.val
              then s.step + 1 else s.step) ≥ script.length
          then
            ({ s with
                step := if s.duration + 1 ≥ (readScript script past s.step).duration.val
                  then s.step + 1 else s.step,
                duration := if s.duration + 1 ≥ (readScript script past s.step).duration.val
                  then 0 else s.duration + 1 },
              runReport K (readScript script past s.step))
          else
            ({ s with
                step := if s.duration + 1 ≥ (readScript script past s.step).duration.val
                  then s.step + 1 else s.step,
                duration := if s.duration + 1 ≥ (readScript script past s.step).duration.val
                  then 0 else s.duration + 1,
                last_report := runReport K (readScript script past s.step),
                reps := REPS },
              runReport K (readScript script past s.step))) := by
  unfold GetNextReport
  rw [if_neg (by omega), hs]

/-- A fresh `RUN` call on which the elapsed counter stays below the duration. -/
theorem GetNextReport_run_stay (K : Header) (script : List Instruction)
    (past : Nat → Instruction) (s : Playback) (ins : Instruction)
    (hr : s.reps = 0) (hs : s.state = State_t.RUN) (hi : script[s.step]? = some ins)
    (hd : s.duration + 1 < ins.duration.val) :
    GetNextReport K script past s
      = ({ s with duration := s.duration + 1, last_report := runReport K ins, reps := REPS },
          runReport K ins) := by
  have hlt := lt_length_of_getElem? script s.step ins hi
  have h1 : ¬ (s.duration + 1 ≥ ins.duration.val) := by omega
  have h2 : ¬ (s.step ≥ script.length) := by omega
  rw [GetNextReport_run K script past s hr hs, readScript_inside script past s.step ins hi]
  simp only [h1, h2, if_false]

/-- A fresh `RUN` call on which the elapsed counter reaches the duration, with a
further instruction behind the current one. -/
theorem GetNextReport_run_advance (K : Header) (script : List Instruction)
    (past : Nat → Instruction) (s : Playback) (ins : Instruction)
    (hr : s.reps = 0) (hs : s.state = State_t.RUN) (hi : script[s.step]? = some ins)
    (hn : s.step + 1 < script.length) (hd : ins.duration.val ≤ s.duration + 1) :
    GetNextReport K script past s
      = ({ s with
            step := s.step + 1,
            duration := 0,
            last_report := runReport K ins,
            reps := REPS },
          runReport K ins) := by
  have h1 : s.duration + 1 ≥ ins.duration.val := hd
  have h2 : ¬ (s.step + 1 ≥ script.length) := by omega
  rw [GetNextReport_run K script past s hr hs, readScript_inside script past s.step ins hi]
  simp only [h1, h2, if_true, if_false]

/-- A fresh `RUN` call on which the elapsed counter reaches the duration of the last
instruction of the table: the early return of line 313. -/
theorem GetNextReport_run_last (K : Header) (script : List Instruction)
    (past : Nat → Instruction) (s : Playback)
    (hr : s.reps = 0) (hs : s.state = State_t.RUN)
    (hn : script.length ≤ s.step + 1)
    (hd : (readScript script past s.step).duration.val ≤ s.duration + 1) :
    GetNextReport K script past s
      = ({ s with step := s.step + 1, duration := 0 },
          runReport K (readScript script past s.step)) := by
  have h1 : s.duration + 1 ≥ (readScript script past s.step).duration.val := hd
  have h2 : s.step + 1 ≥ script.length := hn
  rw [GetNextReport_run K script past s hr hs]
  simp only [h1, h2, if_true]

/-- A fresh `RUN` call with the cursor at or behind the end of the table, on which the
counter stays below the duration found in memory: only `duration` changes. -/
theorem GetNextReport_run_outside_stay (K : Header) (script : List Instruction)
    (past : Nat → Instruction) (s : Playback)
    (hr : s.reps = 0) (hs : s.state = State_t.RUN) (hn : script.length ≤ s.step)
    (hd : s.duration + 1 < (readScript script past s.step).duration.val) :
    GetNextReport K script past s
      = ({ s with duration := s.duration + 1 },
          runReport K (readScript script past s.step)) := by
  have h1 : ¬ (s.duration + 1 ≥ (readScript script past s.step).duration.val) := by omega
  have h2 : s.step ≥ script.length := hn
  rw [GetNextReport_run K script past s hr hs]
  simp only [h1, h2, if_true, if_false]

/-- One call leaves `step` alone or adds one to it, from any globals. -/
theorem step_succ_or_same (K : Header) (script : List Instruction) (past : Nat → Instruction)
    (s : Playback) :
    (GetNextReport K script past s).1.step = s.step
      ∨ (GetNextReport K script past s).1.step = s.step + 1 := by
  by_cases hr : 0 < s.reps
  · rw [GetNextReport_replay K script past s hr]
    exact Or.inl rfl
  · cases hst : s.state with
    | SYNC => simp [GetNextReport, hr, hst]
    | WAIT => simp [GetNextReport, hr, hst]
    | RUN =>
      rw [GetNextReport_run K script past s (by omega) hst]
      split_ifs <;> simp

/-- A call that changes `step` leaves `duration = 0`, from any globals. -/
theorem duration_reset (K : Header) (script : List Instruction) (past : Nat → Instruction)
    (s : Playback) (h : (GetNextReport K script past s).1.step ≠ s.step) :
    (GetNextReport K script past s).1.duration = 0 := by
  by_cases hr : 0 < s.reps
  · rw [GetNextReport_replay K script past s hr] at h
    exact absurd rfl h
  · cases hst : s.state with
    | SYNC => simp [GetNextReport, hr, hst] at h
    | WAIT => simp [GetNextReport, hr, hst] at h
    | RUN =>
      rw [GetNextReport_run K script past s (by omega) hst] at h ⊢
      split_ifs at h ⊢ <;> simp at h ⊢

/-- One call keeps `reps` at most `REPS` and `duration` below 255, the largest
duration an instruction can hold. -/
theorem counters_step (K : Header) (script : List Instruction) (past : Nat → Instruction)
    (s : Playback) (h1 : s.reps ≤ REPS) (h2 : s.duration < 255) :
    (GetNextReport K script past s).1.reps ≤ REPS
      ∧ (GetNextReport K script past s).1.duration < 255 := by
  by_cases hr : 0 < s.reps
  · rw [GetNextReport_replay K script past s hr]
    exact ⟨by show s.reps - 1 ≤ REPS; omega, h2⟩
  · cases hst : s.state with
    | SYNC => simp [GetNextReport, hr, hst, h2]
    | WAIT => simp [GetNextReport, hr, hst, h2]
    | RUN =>
      rw [GetNextReport_run K script past s (by omega) hst]
      have hlt := (readScript script past s.step).duration.isLt
      split_ifs <;> refine ⟨?_, ?_⟩ <;> simp <;> omega

/-- The counters stay within the range of a C `int` on every run from the initial
globals: `reps ≤ REPS`, `duration < 255` and `step` is at most the number of calls. -/
theorem counters_bounded (K : Header) (script : List Instruction) (past : Nat → Instruction)
    (n : Nat) :
    (runCalls K script past n init).reps ≤ REPS
      ∧ (runCalls K script past n init).duration < 255
      ∧ (runCalls K script past n init).step ≤ n := by
  induction n with
  | zero => exact ⟨Nat.zero_le _, Nat.zero_lt_succ 254, Nat.le_refl 0⟩
  | succ n ih =>
    have hc := counters_step K script past _ ih.1 ih.2.1
    refine ⟨hc.1, hc.2, ?_⟩
    rcases step_succ_or_same K script past (runCalls K script past n init) with h | h
    · rw [runCalls_succ, h]; omega
    · rw [runCalls_succ, h]; omega

/-- The ten startup calls return the cleared report. -/
theorem startup_reports (K : Header) (script : List Instruction) (past : Nat → Instruction)
    (k : Nat) (hk : k < 10) :
    nthReport K script past k init = clearedReport K := by
  interval_cases k <;> rfl

/-- The ten startup calls lead to the start of instruction 0. -/
theorem runCalls_startup (K : Header) (script : List Instruction) (past : Nat → Instruction) :
    runCalls K script past 10 init
      = { state := State_t.RUN, last_report := clearedReport K, reps := 0, step := 0,
          duration := 0 } := rfl

/-! ## The trajectory through one instruction -/

/-- The trajectory through one instruction that is not the last one of the table.
With `n + 1` time units left on the instruction, the next `5 * (n + 1)` calls all
return the report of the instruction; `step` moves on at the fresh call of the last
time unit, `reps` is back at zero exactly every fifth call, and `duration` grows by
one at every fresh call but the last, which resets it. -/
theorem cadence_aux (K : Header) (script : List Instruction) (past : Nat → Instruction)
    (i : Nat) (ins : Instruction) (hi : script[i]? = some ins)
    (hn : i + 1 < script.length) :
    ∀ (n : Nat) (s : Playback), s.state = State_t.RUN → s.reps = 0 → s.step = i →
      s.duration + (n + 1) = max ins.duration.val 1 →
      (∀ k, k < 5 * (n + 1) → nthReport K script past k s = runReport K ins) ∧
      (∀ k, k ≤ 5 * (n + 1) →
        (runCalls K script past k s).step = if k ≤ 5 * n then i else i + 1) ∧
      (∀ k, k ≤ 5 * (n + 1) →
        (runCalls K script past k s).reps = (5 * (n + 1) - k) % 5) ∧
      runCalls K script past (5 * (n + 1)) s
        = { state := State_t.RUN, last_report := runReport K ins, reps := 0,
            step := i + 1, duration := 0 } ∧
      (∀ k, k ≤ 5 * (n + 1) →
        (runCalls K script past k s).duration
          = if k ≤ 5 * n then s.duration + (k + 4) / 5 else 0) := by
  intro n
  induction n with
  | zero =>
    intro s hs hr hstep hdur
    have hi2 : script[s.step]? = some ins := by rw [hstep]; exact hi
    have hg := GetNextReport_run_advance K script past s ins hr hs hi2 (by omega) (by omega)
    have hc : (GetNextReport K script past s).1.reps = REPS := by rw [hg]
    have hl : (GetNextReport K script past s).1.last_report
        = (GetNextReport K script past s).2 := by rw [hg]
    refine ⟨?_, ?_, ?_, ?_, ?_⟩
    · intro k hk
      rw [nthReport_block K script past s hc hl k (by unfold REPS; omega), hg]
    · intro k hk
      cases k with
      | zero => simp [runCalls, hstep]
      | succ j =>
        rw [runCalls_block K script past s hc j (by unfold REPS; omega), hg]
        simp [hstep]
    · intro k hk
      cases k with
      | zero => simp [runCalls, hr]
      | succ j =>
        rw [runCalls_block K script past s hc j (by unfold REPS; omega), hg]
        show REPS - j = _
        unfold REPS
        omega
    · have h5 := runCalls_block K script past s hc 4 (by unfold REPS; omega)
      rw [hg] at h5
      rw [show 5 * (0 + 1) = 4 + 1 from rfl, h5]
      simp [hs, hstep, REPS]
    · intro k hk
      cases k with
      | zero => simp [runCalls]
      | succ j =>
        rw [runCalls_block K script past s hc j (by unfold REPS; omega), hg]
        simp
  | succ n ih =>
    intro s hs hr hstep hdur
    have hi2 : script[s.step]? = some ins := by rw [hstep]; exact hi
    have hg := GetNextReport_run_stay K script past s ins hr hs hi2 (by omega)
    have hc : (GetNextReport K script past s).1.reps = REPS := by rw [hg]
    have hl : (GetNextReport K script past s).1.last_report
        = (GetNextReport K script past s).2 := by rw [hg]
    have hblock : ∀ j, j ≤ 4 → runCalls K script past (j + 1) s
        = { s with duration := s.duration + 1, last_report := runReport K ins,
                   reps := REPS - j } := by
      intro j hj
      rw [runCalls_block K script past s hc j (by unfold REPS; omega), hg]
    have h5 := hblock 4 (by omega)
    obtain ⟨ih1, ih2, ih3, ih4, ih5⟩ := ih (runCalls K script past (4 + 1) s)
      (by rw [h5]; exact hs) (by rw [h5]; rfl) (by rw [h5]; exact hstep)
      (by rw [h5]; show s.duration + 1 + (n + 1) = _; omega)
    refine ⟨?_, ?_, ?_, ?_, ?_⟩
    · intro k hk
      rcases Nat.lt_or_ge k 5 with hlt | hge
      · rw [nthReport_block K script past s hc hl k (by unfold REPS; omega), hg]
      · obtain ⟨k2, rfl⟩ : ∃ k2, k = (4 + 1) + k2 := ⟨k - 5, by omega⟩
        rw [nthReport_add]
        exact ih1 k2 (by omega)
    · intro k hk
      rcases Nat.lt_or_ge k 5 with hlt | hge
      · cases k with
        | zero => simp [runCalls, hstep]
        | succ j =>
          rw [hblock j (by omega), if_pos (by omega)]
          exact hstep
      · obtain ⟨k2, rfl⟩ : ∃ k2, k = (4 + 1) + k2 := ⟨k - 5, by omega⟩
        rw [runCalls_add, ih2 k2 (by omega)]
        by_cases hk2 : k2 ≤ 5 * n
        · rw [if_pos hk2, if_pos (by omega)]
        · rw [if_neg hk2, if_neg (by omega)]
    · intro k hk
      rcases Nat.lt_or_ge k 5 with hlt | hge
      · cases k with
        | zero => simp [runCalls, hr]
        | succ j =>
          rw [hblock j (by omega)]
          show REPS - j = _
          unfold REPS
          omega
      · obtain ⟨k2, rfl⟩ : ∃ k2, k = (4 + 1) + k2 := ⟨k - 5, by omega⟩
        rw [runCalls_add, ih3 k2 (by omega)]
        omega
    · rw [show 5 * (n + 1 + 1) = (4 + 1) + 5 * (n + 1) by omega, runCalls_add]
      exact ih4
    · intro k hk
      rcases Nat.lt_or_ge k 5 with hlt | hge
      · cases k with
        | zero => simp [runCalls]
        | succ j =>
          rw [hblock j (by omega), if_pos (by omega)]
          show s.duration + 1 = _
          omega
      · obtain ⟨k2, rfl⟩ : ∃ k2, k = (4 + 1) + k2 := ⟨k - 5, by omega⟩
        rw [runCalls_add, ih5 k2 (by omega), h5]
        show (if k2 ≤ 5 * n then s.duration + 1 + (k2 + 4) / 5 else 0) = _
        by_cases hk2 : k2 ≤ 5 * n
        · rw [if_pos hk2, if_pos (by omega)]
          omega
        · rw [if_neg hk2, if_neg (by omega)]

/-- The trajectory through the last instruction of the table: with `n + 1` time units
left, the next `5 * n + 1` calls return the report of the instruction, and the last of
them, a fresh call, moves `step` to `len(script)` and returns at line 313 with
`reps = 0`. -/
theorem cadence_last (K : Header) (script : List Instruction) (past : Nat → Instruction)
    (i : Nat) (ins : Instruction) (hi : script[i]? = some ins)
    (hn : i + 1 = script.length) :
    ∀ (n : Nat) (s : Playback), s.state = State_t.RUN → s.reps = 0 → s.step = i →
      s.duration + (n + 1) = max ins.duration.val 1 →
      (∀ k, k < 5 * n + 1 → nthReport K script past k s = runReport K ins) ∧
      (∀ k, k ≤ 5 * n → (runCalls K script past k s).step = i) ∧
      (∃ lr, runCalls K script past (5 * n + 1) s
        = { state := State_t.RUN, last_report := lr, reps := 0,
            step := script.length, duration := 0 }) := by
  intro n
  induction n with
  | zero =>
    intro s hs hr hstep hdur
    have hrd : readScript script past s.step = ins := by
      rw [hstep]; exact readScript_inside script past i ins hi
    have hg := GetNextReport_run_last K script past s hr hs (by omega) (by rw [hrd]; omega)
    rw [hrd] at hg
    refine ⟨?_, ?_, ?_⟩
    · intro k hk
      have hk0 : k = 0 := by omega
      subst hk0
      show (GetNextReport K script past s).2 = _
      rw [hg]
    · intro k hk
      have hk0 : k = 0 := by omega
      subst hk0
      exact hstep
    · refine ⟨s.last_report, ?_⟩
      show (GetNextReport K script past s).1 = _
      rw [hg]
      simp [hs, hr, hstep, hn]
  | succ n ih =>
    intro s hs hr hstep hdur
    have hi2 : script[s.step]? = some ins := by rw [hstep]; exact hi
    have hg := GetNextReport_run_stay K script past s ins hr hs hi2 (by omega)
    have hc : (GetNextReport K script past s).1.reps = REPS := by rw [hg]
    have hl : (GetNextReport K script past s).1.last_report
        = (GetNextReport K script past s).2 := by rw [hg]
    have hblock : ∀ j, j ≤ 4 → runCalls K script past (j + 1) s
        = { s with duration := s.duration + 1, last_report := runReport K ins,
                   reps := REPS - j } := by
      intro j hj
      rw [runCalls_block K script past s hc j (by unfold REPS; omega), hg]
    have h5 := hblock 4 (by omega)
    obtain ⟨ih1, ih2, lr, ih3⟩ := ih (runCalls K script past (4 + 1) s)
      (by rw [h5]; exact hs) (by rw [h5]; rfl) (by rw [h5]; exact hstep)
      (by rw [h5]; show s.duration + 1 + (n + 1) = _; omega)
    refine ⟨?_, ?_, lr, ?_⟩
    · intro k hk
      rcases Nat.lt_or_ge k 5 with hlt | hge
      · rw [nthReport_block K script past s hc hl k (by unfold REPS; omega), hg]
      · obtain ⟨k2, rfl⟩ : ∃ k2, k = (4 + 1) + k2 := ⟨k - 5, by omega⟩
        rw [nthReport_add]
        exact ih1 k2 (by omega)
    · intro k hk
      rcases Nat.lt_or_ge k 5 with hlt | hge
      · cases k with
        | zero => exact hstep
        | succ j =>
          rw [hblock j (by omega)]
          exact hstep
      · obtain ⟨k2, rfl⟩ : ∃ k2, k = (4 + 1) + k2 := ⟨k - 5, by omega⟩
        rw [runCalls_add]
        exact ih2 k2 (by omega)
    · rw [show 5 * (n + 1) + 1 = (4 + 1) + (5 * n + 1) by omega, runCalls_add]
      exact ih3

/-- With the cursor at `j ≥ len(script)` every call is a fresh one that reads the
record `past (j - len)` behind the table, and after as many calls as that record has
time units the cursor moves on to `j + 1`. -/
theorem runCalls_outside (K : Header) (script : List Instruction) (past : Nat → Instruction)
    (j : Nat) (hj : script.length ≤ j) :
    ∀ (n : Nat) (s : Playback), s.state = State_t.RUN → s.reps = 0 → s.step = j →
      s.duration + (n + 1) = max (past (j - script.length)).duration.val 1 →
      (∀ k, k ≤ n → nthReport K script past k s = runReport K (past (j - script.length))) ∧
      runCalls K script past (n + 1) s = { s with step := j + 1, duration := 0 } := by
  intro n
  induction n with
  | zero =>
    intro s hs hr hstep hdur
    have hrd : readScript script past s.step = past (j - script.length) := by
      rw [hstep]; exact readScript_outside script past j hj
    have hg := GetNextReport_run_last K script past s hr hs (by omega) (by rw [hrd]; omega)
    rw [hrd, hstep] at hg
    refine ⟨?_, ?_⟩
    · intro k hk
      have hk0 : k = 0 := by omega
      subst hk0
      show (GetNextReport K script past s).2 = _
      rw [hg]
    · show (GetNextReport K script past s).1 = _
      rw [hg]
  | succ n ih =>
    intro s hs hr hstep hdur
    have hrd : readScript script past s.step = past (j - script.length) := by
      rw [hstep]; exact readScript_outside script past j hj
    have hg := GetNextReport_run_outside_stay K script past s hr hs (by omega)
      (by rw [hrd]; omega)
    rw [hrd] at hg
    have h1 : runCalls K script past 1 s = { s with duration := s.duration + 1 } := by
      show (GetNextReport K script past s).1 = _
      rw [hg]
    obtain ⟨ih1, ih2⟩ := ih (runCalls K script past 1 s)
      (by rw [h1]; exact hs) (by rw [h1]; exact hr) (by rw [h1]; exact hstep)
      (by rw [h1]; show s.duration + 1 + (n + 1) = _; omega)
    refine ⟨?_, ?_⟩
    · intro k hk
      cases k with
      | zero =>
        show (GetNextReport K script past s).2 = _
        rw [hg]
      | succ k2 =>
        rw [Nat.add_comm, nthReport_add]
        exact ih1 k2 (by omega)
    · rw [show n + 1 + 1 = 1 + (n + 1) by omega, runCalls_add, ih2, h1]

/-! ## Walking through the whole table -/

theorem timeUnits_append (a b : List Instruction) :
    timeUnits (a ++ b) = timeUnits a + timeUnits b := by
  induction a with
  | nil => simp [timeUnits]
  | cons x a ih => simp [timeUnits, ih, Nat.add_assoc]

theorem timeUnits_take_succ (script : List Instruction) (i : Nat) (ins : Instruction)
    (hi : script[i]? = some ins) :
    timeUnits (script.take (i + 1)) = timeUnits (script.take i) + max ins.duration.val 1 := by
  rw [List.take_succ, timeUnits_append, hi]
  simp [timeUnits]

/-- After the startup and five calls for every time unit of the first `i` instructions
the playback is at the start of instruction `i`, for every `i` inside the table. -/
theorem runCalls_reach (K : Header) (script : List Instruction) (past : Nat → Instruction) :
    ∀ i, i < script.length →
      ∃ lr, runCalls K script past (10 + 5 * timeUnits (script.take i)) init
        = { state := State_t.RUN, last_report := lr, reps := 0, step := i, duration := 0 } := by
  intro i
  induction i with
  | zero =>
    intro _
    exact ⟨clearedReport K, by simp [timeUnits, runCalls_startup]⟩
  | succ i ih =>
    intro hlt
    obtain ⟨lr, hlr⟩ := ih (by omega)
    obtain ⟨ins, hi⟩ : ∃ ins, script[i]? = some ins :=
      ⟨script.get ⟨i, by omega⟩, List.getElem?_eq_getElem (by omega)⟩
    obtain ⟨_, _, _, a4, _⟩ := cadence_aux K script past i ins hi hlt
      (max ins.duration.val 1 - 1)
      { state := State_t.RUN, last_report := lr, reps := 0, step := i, duration := 0 }
      rfl rfl rfl (by show 0 + _ = _; omega)
    refine ⟨runReport K ins, ?_⟩
    have hN : 10 + 5 * timeUnits (script.take (i + 1))
        = (10 + 5 * timeUnits (script.take i)) + 5 * (max ins.duration.val 1 - 1 + 1) := by
      rw [timeUnits_take_succ script i ins hi]
      omega
    rw [hN, runCalls_add, hlr, a4]

/-- The whole table is played in `(REPS + 1) * (1 + timeUnits script) + 1` calls: after
that many calls from the initial globals the cursor stands at `len(script)`, in state
`RUN` and with no replay pending. -/
theorem runCalls_exhaust (K : Header) (script : List Instruction) (past : Nat → Instruction)
    (hne : script ≠ []) :
    ∃ lr, runCalls K script past ((REPS + 1) * (1 + timeUnits script) + 1) init
      = { state := State_t.RUN, last_report := lr, reps := 0,
          step := script.length, duration := 0 } := by
  have hpos : 0 < script.length := List.length_pos.mpr hne
  obtain ⟨lr, hlr⟩ := runCalls_reach K script past (script.length - 1) (by omega)
  obtain ⟨ins, hi⟩ : ∃ ins, script[script.length - 1]? = some ins :=
    ⟨script.get ⟨script.length - 1, by omega⟩, List.getElem?_eq_getElem (by omega)⟩
  have htu := timeUnits_take_succ script (script.length - 1) ins hi
  rw [show script.length - 1 + 1 = script.length by omega, List.take_length] at htu
  obtain ⟨_, _, lr2, h3⟩ := cadence_last K script past (script.length - 1) ins hi (by omega)
    (max ins.duration.val 1 - 1)
    { state := State_t.RUN, last_report := lr, reps := 0, step := script.length - 1,
      duration := 0 }
    rfl rfl rfl (by show 0 + _ = _; omega)
  refine ⟨lr2, ?_⟩
  have hN : (REPS + 1) * (1 + timeUnits script) + 1
      = (10 + 5 * timeUnits (script.take (script.length - 1)))
        + (5 * (max ins.duration.val 1 - 1) + 1) := by
    unfold REPS
    omega
  rw [hN, runCalls_add, hlr, h3]

/-- The table of the repository has 44 entries that take 1234 time units. -/
theorem script_size (K : Header) :
    (script K).length = 44 ∧ timeUnits (script K) = 1234 := by
  constructor
  · rfl
  · simp only [script, timeUnits]
    decide

/-- The globals after 6176 calls on the table of the repository: the cursor is at 44,
the length of the table, in state `RUN` with no replay pending. -/
theorem script_exhausted (K : Header) (past : Nat → Instruction) :
    ∃ lr, runCalls K (script K) past 6176 init
      = { state := State_t.RUN, last_report := lr, reps := 0, step := 44, duration := 0 } := by
  obtain ⟨lr, h⟩ := runCalls_exhaust K (script K) past (by simp [script])
  rw [(script_size K).1, (script_size K).2] at h
  exact ⟨lr, h⟩

/-- The globals after the further calls that the record behind the table of the
repository keeps the cursor at 44: the cursor is at 45. -/
theorem script_overrun (K : Header) (past : Nat → Instruction) :
    ∃ lr, runCalls K (script K) past (6176 + max (past 0).duration.val 1) init
      = { state := State_t.RUN, last_report := lr, reps := 0, step := 45, duration := 0 } := by
  obtain ⟨lr, h⟩ := script_exhausted K past
  have ho := (runCalls_outside K (script K) past 44 (by rw [(script_size K).1])
    (max (past 0).duration.val 1 - 1)
    { state := State_t.RUN, last_report := lr, reps := 0, step := 44, duration := 0 }
    rfl rfl rfl
    (by rw [(script_size K).1]; show 0 + _ = max (past 0).duration.val 1; omega)).2
  refine ⟨lr, ?_⟩
  rw [runCalls_add, h,
    show max (past 0).duration.val 1 = max (past 0).duration.val 1 - 1 + 1 by omega, ho]

/-! ## What the cache holds -/

/-- One call keeps the relation between the globals and the cache: outside `RUN`
nothing has elapsed and the cursor is at 0, and in `RUN` a pending replay with
`duration > 0` holds the report of the instruction under the cursor. -/
theorem cache_step (K : Header) (script : List Instruction) (past : Nat → Instruction)
    (s : Playback)
    (h1 : s.state ≠ State_t.RUN → s.duration = 0 ∧ s.step = 0)
    (h2 : s.state = State_t.RUN → 0 < s.reps → 0 < s.duration →
      ∃ ins, script[s.step]? = some ins ∧ s.last_report = runReport K ins) :
    ((GetNextReport K script past s).1.state ≠ State_t.RUN →
      (GetNextReport K script past s).1.duration = 0
        ∧ (GetNextReport K script past s).1.step = 0)
    ∧ ((GetNextReport K script past s).1.state = State_t.RUN →
      0 < (GetNextReport K script past s).1.reps →
      0 < (GetNextReport K script past s).1.duration →
      ∃ ins, script[(GetNextReport K script past s).1.step]? = some ins
        ∧ (GetNextReport K script past s).1.last_report = runReport K ins) := by
  by_cases hr : 0 < s.reps
  · rw [GetNextReport_replay K script past s hr]
    exact ⟨h1, fun a b c => h2 a (by simp at b; omega) c⟩
  · cases hst : s.state with
    | SYNC =>
      have hd := (h1 (by rw [hst]; decide)).1
      have hp := (h1 (by rw [hst]; decide)).2
      simp [GetNextReport, hr, hst, hd, hp]
    | WAIT =>
      have hd := (h1 (by rw [hst]; decide)).1
      simp [GetNextReport, hr, hst, hd]
    | RUN =>
      rw [GetNextReport_run K script past s (by omega) hst]
      by_cases hd : s.duration + 1 ≥ (readScript script past s.step).duration.val
      · simp only [hd, if_true]
        split <;> simp [hst]
      · simp only [hd, if_false]
        by_cases hl : s.step ≥ script.length
        · simp only [hl, if_true]
          exact ⟨fun a => absurd hst a, fun _ b _ => absurd b hr⟩
        · simp only [hl, if_false]
          refine ⟨fun a => absurd hst a, fun _ _ _ => ?_⟩
          have hlt : s.step < script.length := by omega
          refine ⟨script[s.step], ?_, ?_⟩
          · exact List.getElem?_eq_getElem hlt
          · show runReport K (readScript script past s.step) = _
            rw [readScript_inside script past s.step _ (List.getElem?_eq_getElem hlt)]

/-- The relation of `cache_step` holds after any number of calls from the initial
globals. -/
theorem cache_reachable (K : Header) (script : List Instruction) (past : Nat → Instruction)
    (n : Nat) :
    ((runCalls K script past n init).state ≠ State_t.RUN →
      (runCalls K script past n init).duration = 0
        ∧ (runCalls K script past n init).step = 0)
    ∧ ((runCalls K script past n init).state = State_t.RUN →
      0 < (runCalls K script past n init).reps →
      0 < (runCalls K script past n init).duration →
      ∃ ins, script[(runCalls K script past n init).step]? = some ins
        ∧ (runCalls K script past n init).last_report = runReport K ins) := by
  induction n with
  | zero =>
    refine ⟨fun _ => ⟨rfl, rfl⟩, fun h => ?_⟩
    have h2 : State_t.SYNC = State_t.RUN := h
    cases h2
  | succ n ih => exact cache_step K script past _ ih.1 ih.2

/-- C1, as stated, fails. On the scenario script call 11 is entered with `state = RUN`,
`step = 0`, `duration = 0` and `reps = 0`, on the instruction
`{ SWITCH_PLUS, HAT_CENTER, 3 }`. With `3 * (REPS + 1) = 15` calls before the first call
entered with `step = i + 1`, each of the calls 11-25 would be entered with `step ≠ 1`;
but the globals after 21 calls hold `step = 1`, so call 22 is entered with it. And on
a script whose first instruction has duration 0, the call made after
`0 * (REPS + 1) = 0` calls, call 11 itself, is entered with `step = 0` and not with
`step = i + 1`. -/
theorem C1_cadence_as_stated_fails :
    (runCalls pokken plusScript zeroPast 10 init
        = { state := State_t.RUN, last_report := clearedReport pokken, reps := 0,
            step := 0, duration := 0 }
      ∧ plusScript[0]? = some { buttons := 0x200, hat := 8, duration := 3 }
      ∧ ¬ (∀ k, k < 3 * (REPS + 1) →
            (runCalls pokken plusScript zeroPast (10 + k) init).step ≠ 0 + 1))
    ∧ (runCalls pokken zeroDurationScript zeroPast 10 init
        = { state := State_t.RUN, last_report := clearedReport pokken, reps := 0,
            step := 0, duration := 0 }
      ∧ zeroDurationScript[0]? = some { buttons := 0x200, hat := 8, duration := 0 }
      ∧ ¬ ((runCalls pokken zeroDurationScript zeroPast (10 + 0 * (REPS + 1)) init).step
            = 0 + 1)) := by
  refine ⟨⟨by decide, by decide, fun h => h 11 (by decide) (by decide)⟩,
    by decide, by decide, by decide⟩

/-- C1, amended: let instruction `i` (not the last of the table, duration `d`) be entered
with `state = RUN`, `step = i`, `duration = 0`, `reps = 0`, and let `m = max d 1`. Then
exactly `m * (REPS + 1)` calls are made before the first call that is entered with
`step = i + 1` and `reps = 0`, that is, before the first fresh call on instruction
`i + 1`; the first `(m - 1) * (REPS + 1) + 1` calls of the span are entered with
`step = i` and the `REPS` replays after them with `step = i + 1`; every call of the span
returns the report of instruction `i`, so the report is the same within each block of
`REPS + 1` calls. -/
theorem C1_cadence_law (K : Header) (script : List Instruction) (past : Nat → Instruction)
    (i : Nat) (ins : Instruction) (s : Playback)
    (hi : script[i]? = some ins) (hn : i + 1 < script.length)
    (hs : s.state = State_t.RUN) (hstep : s.step = i) (hd : s.duration = 0)
    (hr : s.reps = 0) :
    (∀ k, k < max ins.duration.val 1 * (REPS + 1) →
      ¬ ((runCalls K script past k s).step = i + 1 ∧ (runCalls K script past k s).reps = 0))
    ∧ (runCalls K script past (max ins.duration.val 1 * (REPS + 1)) s
        = { state := State_t.RUN, last_report := runReport K ins, reps := 0,
            step := i + 1, duration := 0 })
    ∧ (∀ k, k ≤ max ins.duration.val 1 * (REPS + 1) →
        (runCalls K script past k s).step
          = if k ≤ (max ins.duration.val 1 - 1) * (REPS + 1) then i else i + 1)
    ∧ (∀ k, k < max ins.duration.val 1 * (REPS + 1) →
        nthReport K script past k s = runReport K ins)
    ∧ (∀ q r, q < max ins.duration.val 1 → r ≤ REPS →
        nthReport K script past (q * (REPS + 1) + r) s
          = nthReport K script past (q * (REPS + 1)) s) := by
  obtain ⟨a1, a2, a3, a4, _⟩ := cadence_aux K script past i ins hi hn
    (max ins.duration.val 1 - 1) s hs hr hstep (by omega)
  have hN : max ins.duration.val 1 * (REPS + 1) = 5 * (max ins.duration.val 1 - 1 + 1) := by
    unfold REPS; omega
  have hM : (max ins.duration.val 1 - 1) * (REPS + 1) = 5 * (max ins.duration.val 1 - 1) := by
    unfold REPS; omega
  rw [hN, hM]
  refine ⟨?_, a4, a2, a1, ?_⟩
  · intro k hk hcon
    have e2 := a2 k (by omega)
    have e3 := a3 k (by omega)
    rw [hcon.2] at e3
    rw [hcon.1] at e2
    by_cases hle : k ≤ 5 * (max ins.duration.val 1 - 1)
    · rw [if_pos hle] at e2
      omega
    · rw [if_neg hle] at e2
      omega
  · intro q r hq hr2
    have hq1 : q * (REPS + 1) + r < 5 * (max ins.duration.val 1 - 1 + 1) := by
      unfold REPS at hr2 ⊢; omega
    have hq2 : q * (REPS + 1) < 5 * (max ins.duration.val 1 - 1 + 1) := by
      unfold REPS; omega
    rw [a1 _ hq1, a1 _ hq2]

/-- Witness of C1: the instruction `{ SWITCH_PLUS, HAT_CENTER, 3 }` at the head of the
scenario script, entered by call 11 of the program, with the Pokken constants. -/
theorem C1_cadence_law_witness :
    (∀ k, k < 3 * (REPS + 1) →
      ¬ ((runCalls pokken plusScript zeroPast k
            (runCalls pokken plusScript zeroPast 10 init)).step = 1
          ∧ (runCalls pokken plusScript zeroPast k
            (runCalls pokken plusScript zeroPast 10 init)).reps = 0))
    ∧ (runCalls pokken plusScript zeroPast (3 * (REPS + 1))
        (runCalls pokken plusScript zeroPast 10 init)).step = 1
    ∧ (∀ k, k < 3 * (REPS + 1) →
        nthReport pokken plusScript zeroPast k (runCalls pokken plusScript zeroPast 10 init)
          = { Button := 0x200, HAT := 8, LX := 128, LY := 128, RX := 128, RY := 128 }) := by
  have h := C1_cadence_law pokken plusScript zeroPast 0
    { buttons := 0x200, hat := 8, duration := 3 }
    (runCalls pokken plusScript zeroPast 10 init)
    (by decide) (by decide) (by decide) (by decide) (by decide) (by decide)
  refine ⟨h.1, ?_, h.2.2.2.1⟩
  have h2 := h.2.1
  exact congrArg Playback.step h2

/-! ## C2: the startup law -/

/-- C2: from the initial globals and for every script, each of the first
`2 * (REPS + 1) = 10` calls returns the neutral report: `Button = 0`,
`HAT = HAT_CENTER` and the four axes at `STICK_CENTER`. -/
theorem C2_startup_law (K : Header) (script : List Instruction) (past : Nat → Instruction)
    (k : Nat) (hk : k < 2 * (REPS + 1)) :
    nthReport K script past k init
      = { Button := 0, HAT := K.HAT_CENTER.val,
          LX := K.STICK_CENTER.val, LY := K.STICK_CENTER.val,
          RX := K.STICK_CENTER.val, RY := K.STICK_CENTER.val } := by
  exact startup_reports K script past k hk

/-- Witness of C2: the tenth call on the table of the repository. -/
theorem C2_startup_law_witness :
    9 < 2 * (REPS + 1)
    ∧ nthReport pokken (script pokken) zeroPast 9 init
      = { Button := 0, HAT := 8, LX := 128, LY := 128, RX := 128, RY := 128 } :=
  ⟨by decide, C2_startup_law pokken (script pokken) zeroPast 9 (by decide)⟩

/-! ## C3: translation of the current instruction -/

/-- C3, as stated, fails for replayed reports. On the scenario script the seventh call
is entered with `state = RUN` and `step = 0` and replays the neutral report of the
`WAIT` call, whose `Button` is 0 and not `script[0].buttons = 0x200`; call 22 is
entered with `state = RUN` and `step = 1` and replays the report of instruction 0, whose
`Button` is `0x200` and not `script[1].buttons = 0`. -/
theorem C3_translation_as_stated_fails :
    ((runCalls pokken plusScript zeroPast 6 init).state = State_t.RUN
      ∧ (runCalls pokken plusScript zeroPast 6 init).step = 0
      ∧ plusScript[0]? = some { buttons := 0x200, hat := 8, duration := 3 }
      ∧ (nthReport pokken plusScript zeroPast 6 init).Button ≠ 0x200)
    ∧ ((runCalls pokken plusScript zeroPast 21 init).state = State_t.RUN
      ∧ (runCalls pokken plusScript zeroPast 21 init).step = 1
      ∧ plusScript[1]? = some { buttons := 0, hat := 8, duration := 0xFF }
      ∧ (nthReport pokken plusScript zeroPast 21 init).Button ≠ 0) := by
  decide

/-- C3, amended: after any number of calls from the initial globals, a call that is
entered with `state = RUN` and `step = i < len(script)` and that either computes a
fresh report (`reps = 0`) or replays the cache while `duration > 0` returns the report
with `Button = script[i].buttons` (zero-extended), `HAT = script[i].hat` and the four
axes at `STICK_CENTER`. -/
theorem C3_translation (K : Header) (script : List Instruction) (past : Nat → Instruction)
    (n i : Nat) (ins : Instruction)
    (hs : (runCalls K script past n init).state = State_t.RUN)
    (hstep : (runCalls K script past n init).step = i)
    (hi : script[i]? = some ins)
    (hf : (runCalls K script past n init).reps = 0
      ∨ 0 < (runCalls K script past n init).duration) :
    nthReport K script past n init
      = { Button := ins.buttons.val, HAT := ins.hat.val,
          LX := K.STICK_CENTER.val, LY := K.STICK_CENTER.val,
          RX := K.STICK_CENTER.val, RY := K.STICK_CENTER.val } := by
  show (GetNextReport K script past (runCalls K script past n init)).2 = runReport K ins
  by_cases hr : 0 < (runCalls K script past n init).reps
  · rw [GetNextReport_replay K script past _ hr]
    have hdur : 0 < (runCalls K script past n init).duration := by
      rcases hf with h0 | hpos
      · omega
      · exact hpos
    obtain ⟨ins2, e1, e2⟩ := (cache_reachable K script past n).2 hs hr hdur
    rw [hstep, hi] at e1
    cases e1
    exact e2
  · rw [GetNextReport_run K script past _ (by omega) hs, hstep,
      readScript_inside script past i ins hi]
    split_ifs <;> rfl

/-- Witness of C3: call 17 on the scenario script, a replay entered with
`duration = 2`. -/
theorem C3_translation_witness :
    (runCalls pokken plusScript zeroPast 16 init).state = State_t.RUN
    ∧ (runCalls pokken plusScript zeroPast 16 init).step = 0
    ∧ (runCalls pokken plusScript zeroPast 16 init).reps = 4
    ∧ nthReport pokken plusScript zeroPast 16 init
      = { Button := 0x200, HAT := 8, LX := 128, LY := 128, RX := 128, RY := 128 } :=
  ⟨by decide, by decide, by decide,
    C3_translation pokken plusScript zeroPast 16 0
      { buttons := 0x200, hat := 8, duration := 3 }
      (by decide) (by decide) (by decide) (Or.inr (by decide))⟩

/-! ## C4: reads of the table -/

/-- C4 fails on the code. On the table of the repository (44 entries), whatever the
constants of the header and the memory behind the table, the globals after 6176 calls
are `state = RUN`, `reps = 0`, `step = 44 = len(script)`; call 6177 therefore runs the
`RUN` case and reads `script[44]`, an index for which the checked lookup has no entry,
and the report it returns is built from the record behind the table. -/
theorem C4_read_behind_table (K : Header) (past : Nat → Instruction) :
    (∃ lr, runCalls K (script K) past 6176 init
      = { state := State_t.RUN, last_report := lr, reps := 0, step := 44, duration := 0 })
    ∧ (script K).length = 44
    ∧ (script K)[44]? = none
    ∧ nthReport K (script K) past 6176 init = runReport K (past 0) := by
  obtain ⟨lr, h⟩ := script_exhausted K past
  refine ⟨⟨lr, h⟩, rfl, rfl, ?_⟩
  rw [nthReport_eq, h, GetNextReport_run K (script K) past _ rfl rfl]
  have hrd : readScript (script K) past 44 = past 0 :=
    readScript_outside (script K) past 44 (by rw [(script_size K).1])
  show (if _ then _ else _ : Playback × USB_JoystickReport_Input_t).2 = _
  split_ifs <;> exact congrArg (runReport K) hrd

/-! ## C5: after the end of the script -/

/-- C5 fails on the code. On the table of the repository, once `step` has reached
`len(script) = 44` (after 6176 calls), the next call returns the report built from the
record behind the table, with that record's button mask and direction, and not a fixed
idle report: with `0xFF` bytes behind the table it is not the neutral report. And
`step` does change again: after as many further calls as that record has time units
it is 45. -/
theorem C5_no_terminal_state (K : Header) (past : Nat → Instruction) :
    (runCalls K (script K) past 6176 init).step = (script K).length
    ∧ (nthReport K (script K) past 6176 init).Button = (past 0).buttons.val
    ∧ (nthReport K (script K) past 6176 init).HAT = (past 0).hat.val
    ∧ nthReport pokken (script pokken) onesPast 6176 init
        ≠ { Button := 0, HAT := 8, LX := 128, LY := 128, RX := 128, RY := 128 }
    ∧ (runCalls K (script K) past (6176 + max (past 0).duration.val 1) init).step
        = (script K).length + 1 := by
  obtain ⟨lr, h⟩ := script_exhausted K past
  obtain ⟨lr2, h2⟩ := script_overrun K past
  have hrep : ∀ (K2 : Header) (past2 : Nat → Instruction),
      nthReport K2 (script K2) past2 6176 init = runReport K2 (past2 0) := by
    intro K2 past2
    obtain ⟨lr3, h3⟩ := script_exhausted K2 past2
    rw [nthReport_eq, h3, GetNextReport_run K2 (script K2) past2 _ rfl rfl]
    have hrd : readScript (script K2) past2 44 = past2 0 :=
      readScript_outside (script K2) past2 44 (by rw [(script_size K2).1])
    show (if _ then _ else _ : Playback × USB_JoystickReport_Input_t).2 = _
    split_ifs <;> exact congrArg (runReport K2) hrd
  rw [h, h2, hrep K past, hrep pokken onesPast]
  exact ⟨rfl, rfl, rfl, by decide, rfl⟩

/-! ## C6: the concrete scenario -/

/-- C8: a call entered with `reps > 0` returns exactly `last_report`, decrements `reps`
by one and leaves `state`, `step`, `duration` and `last_report` unchanged. -/
theorem C8_replay_branch (K : Header) (script : List Instruction) (past : Nat → Instruction)
    (s : Playback) (h : 0 < s.reps) :
    (GetNextReport K script past s).2 = s.last_report
    ∧ (GetNextReport K script past s).1.reps = s.reps - 1
    ∧ (GetNextReport K script past s).1.state = s.state
    ∧ (GetNextReport K script past s).1.step = s.step
    ∧ (GetNextReport K script past s).1.duration = s.duration
    ∧ (GetNextReport K script past s).1.last_report = s.last_report := by
  rw [GetNextReport_replay K script past s h]
  exact ⟨rfl, rfl, rfl, rfl, rfl, rfl⟩

/-- Witness of C8: the second call of the program, entered with `reps = 4` right after
the `SYNC` call. -/
theorem C8_replay_branch_witness :
    0 < (runCalls pokken (script pokken) zeroPast 1 init).reps
    ∧ (GetNextReport pokken (script pokken) zeroPast
        (runCalls pokken (script pokken) zeroPast 1 init)).2
      = (runCalls pokken (script pokken) zeroPast 1 init).last_report
    ∧ (GetNextReport pokken (script pokken) zeroPast
        (runCalls pokken (script pokken) zeroPast 1 init)).1.reps = 3 :=
  ⟨by decide,
    (C8_replay_branch pokken (script pokken) zeroPast
      (runCalls pokken (script pokken) zeroPast 1 init) (by decide)).1,
    (C8_replay_branch pokken (script pokken) zeroPast
      (runCalls pokken (script pokken) zeroPast 1 init) (by decide)).2.1⟩

/-! ## C9: the `RUN` transition -/

/-- C9: a call entered with `reps = 0`, `state = RUN` and `step = i < len(script)`
returns the report built from `script[i]` (`Button = script[i].buttons`,
`HAT = script[i].hat`, axes centred) and increments `duration`; if the incremented
`duration` is at least `script[i].duration` it sets `step = i + 1` and `duration = 0`,
otherwise `step` stays `i` and `duration` keeps the incremented value; and `duration`
is 0 after every call that changed `step`. -/
theorem C9_run_transition (K : Header) (script : List Instruction) (past : Nat → Instruction)
    (s : Playback) (i : Nat) (ins : Instruction)
    (hr : s.reps = 0) (hs : s.state = State_t.RUN) (hstep : s.step = i)
    (hi : script[i]? = some ins) :
    (GetNextReport K script past s).2
      = { Button := ins.buttons.val, HAT := ins.hat.val,
          LX := K.STICK_CENTER.val, LY := K.STICK_CENTER.val,
          RX := K.STICK_CENTER.val, RY := K.STICK_CENTER.val }
    ∧ (s.duration + 1 ≥ ins.duration.val →
        (GetNextReport K script past s).1.step = i + 1
          ∧ (GetNextReport K script past s).1.duration = 0)
    ∧ (¬ s.duration + 1 ≥ ins.duration.val →
        (GetNextReport K script past s).1.step = i
          ∧ (GetNextReport K script past s).1.duration = s.duration + 1)
    ∧ (∀ t : Playback, (GetNextReport K script past t).1.step ≠ t.step →
        (GetNextReport K script past t).1.duration = 0) := by
  have hrd : readScript script past s.step = ins := by
    rw [hstep]; exact readScript_inside script past i ins hi
  rw [GetNextReport_run K script past s hr hs, hrd, hstep]
  refine ⟨?_, ?_, ?_, fun t ht => duration_reset K script past t ht⟩
  · show _ = runReport K ins
    split_ifs <;> rfl
  · intro hge
    simp only [hge, if_true]
    split_ifs <;> exact ⟨rfl, rfl⟩
  · intro hlt
    simp only [hlt, if_false]
    split_ifs <;> exact ⟨rfl, rfl⟩

/-- Witness of C9: call 21 on the scenario script, the fresh call on which the counter
of the `SWITCH_PLUS` instruction reaches its duration 3. -/
theorem C9_run_transition_witness :
    (runCalls pokken plusScript zeroPast 20 init).reps = 0
    ∧ (runCalls pokken plusScript zeroPast 20 init).duration = 2
    ∧ (GetNextReport pokken plusScript zeroPast
        (runCalls pokken plusScript zeroPast 20 init)).2
      = { Button := 0x200, HAT := 8, LX := 128, LY := 128, RX := 128, RY := 128 }
    ∧ (GetNextReport pokken plusScript zeroPast
        (runCalls pokken plusScript zeroPast 20 init)).1.step = 1
    ∧ (GetNextReport pokken plusScript zeroPast
        (runCalls pokken plusScript zeroPast 20 init)).1.duration = 0 :=
  ⟨by decide, by decide,
    (C9_run_transition pokken plusScript zeroPast
      (runCalls pokken plusScript zeroPast 20 init) 0
      { buttons := 0x200, hat := 8, duration := 3 }
      (by decide) (by decide) (by decide) (by decide)).1,
    (C9_run_transition pokken plusScript zeroPast
      (runCalls pokken plusScript zeroPast 20 init) 0
      { buttons := 0x200, hat := 8, duration := 3 }
      (by decide) (by decide) (by decide) (by decide)).2.1 (by decide)⟩

/-! ## C10: the bound on the cursor -/

/-- C10 fails on the code. On the table of the repository, whatever the constants of
the header and the memory behind the table, a number of calls from the initial globals
leads to `step = 45`, which is greater than `len(script) = 44`. -/
theorem C10_cursor_exceeds_length (K : Header) (past : Nat → Instruction) :
    (script K).length
      < (runCalls K (script K) past (6176 + max (past 0).duration.val 1) init).step := by
  obtain ⟨lr2, h2⟩ := script_overrun K past
  rw [h2, (script_size K).1]
  show 44 < 45
  omega

/-! ## Where the returned reports come from -/

/-- One call returns a report that a fresh computation has built, the cleared report
or the report of a record, provided the cache holds such a report whenever a replay
is pending; and it leaves the cache in that condition. -/
theorem computed_step (K : Header) (script : List Instruction) (past : Nat → Instruction)
    (s : Playback)
    (h : 0 < s.reps →
      s.last_report = clearedReport K ∨ ∃ ins, s.last_report = runReport K ins) :
    ((GetNextReport K script past s).2 = clearedReport K
      ∨ ∃ ins, (GetNextReport K script past s).2 = runReport K ins)
    ∧ (0 < (GetNextReport K script past s).1.reps →
      (GetNextReport K script past s).1.last_report = clearedReport K
        ∨ ∃ ins, (GetNextReport K script past s).1.last_report = runReport K ins) := by
  by_cases hr : 0 < s.reps
  · rw [GetNextReport_replay K script past s hr]
    exact ⟨h hr, fun _ => h hr⟩
  · cases hst : s.state with
    | SYNC => simp [GetNextReport, hr, hst]
    | WAIT => simp [GetNextReport, hr, hst]
    | RUN =>
      rw [GetNextReport_run K script past s (by omega) hst]
      split_ifs <;>
        first
        | exact ⟨Or.inr ⟨_, rfl⟩, fun h0 => absurd h0 hr⟩
        | exact ⟨Or.inr ⟨_, rfl⟩, fun _ => Or.inr ⟨_, rfl⟩⟩

/-- On every run from the initial globals each returned report has been built by a
fresh computation, and so has the cached report while a replay is pending. -/
theorem computed_reachable (K : Header) (script : List Instruction)
    (past : Nat → Instruction) (n : Nat) :
    (nthReport K script past n init = clearedReport K
      ∨ ∃ ins, nthReport K script past n init = runReport K ins)
    ∧ (0 < (runCalls K script past n init).reps →
      (runCalls K script past n init).last_report = clearedReport K
        ∨ ∃ ins, (runCalls K script past n init).last_report = runReport K ins) := by
  have hinv : ∀ m, 0 < (runCalls K script past m init).reps →
      (runCalls K script past m init).last_report = clearedReport K
        ∨ ∃ ins, (runCalls K script past m init).last_report = runReport K ins := by
    intro m
    induction m with
    | zero => exact fun h0 => absurd h0 (Nat.lt_irrefl 0)
    | succ m ih => exact (computed_step K script past _ ih).2
  exact ⟨(computed_step K script past _ (hinv n)).1, hinv n⟩

/-- The cursor never moves back on a run of calls. -/
theorem step_mono (K : Header) (script : List Instruction) (past : Nat → Instruction)
    (s : Playback) (n m : Nat) :
    (runCalls K script past n s).step ≤ (runCalls K script past (n + m) s).step := by
  induction m with
  | zero => exact Nat.le_refl _
  | succ m ih =>
    rw [← Nat.add_assoc, runCalls_succ]
    rcases step_succ_or_same K script past (runCalls K script past (n + m) s) with h | h
    · rw [h]; exact ih
    · rw [h]; omega

/-- A call that changes `step` is a fresh call of the `RUN` case. -/
theorem step_change_fresh (K : Header) (script : List Instruction)
    (past : Nat → Instruction) (s : Playback)
    (h : (GetNextReport K script past s).1.step ≠ s.step) :
    s.reps = 0 ∧ s.state = State_t.RUN := by
  by_cases hr : 0 < s.reps
  · rw [GetNextReport_replay K script past s hr] at h
    exact absurd rfl h
  · cases hst : s.state with
    | SYNC => simp [GetNextReport, hr, hst] at h
    | WAIT => simp [GetNextReport, hr, hst] at h
    | RUN => exact ⟨by omega, rfl⟩

/-! ## C11: the axes -/

/-- C11: every report returned by any call from the initial globals, in any playback
state and whether computed afresh or replayed from `last_report`, has
`LX = LY = RX = RY = STICK_CENTER`. -/
theorem C11_axes_neutral (K : Header) (script : List Instruction) (past : Nat → Instruction)
    (n : Nat) :
    (nthReport K script past n init).LX = K.STICK_CENTER.val
    ∧ (nthReport K script past n init).LY = K.STICK_CENTER.val
    ∧ (nthReport K script past n init).RX = K.STICK_CENTER.val
    ∧ (nthReport K script past n init).RY = K.STICK_CENTER.val := by
  rcases (computed_reachable K script past n).1 with h | ⟨ins, h⟩
  · rw [h]
    exact ⟨rfl, rfl, rfl, rfl⟩
  · rw [h]
    exact ⟨rfl, rfl, rfl, rfl⟩

/-! ## C13: the packed record keeps legal values -/

/-- The entries of the table that add two button masks (line 61, `SWITCH_L + SWITCH_R`):
the sum of the two integers stored into the 12-bit field is the sum modulo `2 ^ 12`
that the table of this file holds. -/
theorem storeInstruction_sum (a b : Fin 4096) (h : Fin 16) (d : Fin 256) :
    storeInstruction (a.val + b.val) h.val d.val
      = { buttons := a + b, hat := h, duration := d } := by
  obtain ⟨x, hx⟩ := h
  obtain ⟨y, hy⟩ := d
  simp only [storeInstruction, Nat.mod_eq_of_lt hx, Nat.mod_eq_of_lt hy]
  congr 1

/-- C13: for every instruction with `buttons < 2 ^ 12`, `hat < 2 ^ 4` and
`duration < 2 ^ 8`, storing it in the packed record and reading the fields back yields
the same buttons, hat and duration, also through the report that lines 301-302 build
from the record; storing the fields read from any record again yields the identical
record; and two legal instructions stored as the same record are equal. -/
theorem C13_encoding_round_trip (K : Header) (b h d : Nat)
    (hb : b < 2 ^ 12) (hh : h < 2 ^ 4) (hd : d < 2 ^ 8) :
    (storeInstruction b h d).buttons.val = b
    ∧ (storeInstruction b h d).hat.val = h
    ∧ (storeInstruction b h d).duration.val = d
    ∧ (runReport K (storeInstruction b h d)).Button = b
    ∧ (runReport K (storeInstruction b h d)).HAT = h
    ∧ (∀ ins : Instruction,
        storeInstruction ins.buttons.val ins.hat.val ins.duration.val = ins)
    ∧ (∀ b2 h2 d2 : Nat, b2 < 2 ^ 12 → h2 < 2 ^ 4 → d2 < 2 ^ 8 →
        storeInstruction b2 h2 d2 = storeInstruction b h d → b2 = b ∧ h2 = h ∧ d2 = d) := by
  have e1 : (storeInstruction b h d).buttons.val = b := Nat.mod_eq_of_lt hb
  have e2 : (storeInstruction b h d).hat.val = h := Nat.mod_eq_of_lt hh
  have e3 : (storeInstruction b h d).duration.val = d := Nat.mod_eq_of_lt hd
  refine ⟨e1, e2, e3, e1, e2, ?_, ?_⟩
  · intro ins
    obtain ⟨⟨x, hx⟩, ⟨y, hy⟩, ⟨z, hz⟩⟩ := ins
    simp only [storeInstruction, Nat.mod_eq_of_lt hx, Nat.mod_eq_of_lt hy,
      Nat.mod_eq_of_lt hz]
  · intro b2 h2 d2 hb2 hh2 hd2 heq
    have f1 : (storeInstruction b2 h2 d2).buttons.val = b2 := Nat.mod_eq_of_lt hb2
    have f2 : (storeInstruction b2 h2 d2).hat.val = h2 := Nat.mod_eq_of_lt hh2
    have f3 : (storeInstruction b2 h2 d2).duration.val = d2 := Nat.mod_eq_of_lt hd2
    rw [heq] at f1 f2 f3
    exact ⟨f1.symm.trans e1, f2.symm.trans e2, f3.symm.trans e3⟩

/-- Witness of C13: the entry `{ SWITCH_PLUS, HAT_CENTER, 3 }` of line 64 with the
Pokken constants. -/
theorem C13_encoding_round_trip_witness :
    (storeInstruction 0x200 8 3).buttons.val = 0x200
    ∧ (storeInstruction 0x200 8 3).hat.val = 8
    ∧ (storeInstruction 0x200 8 3).duration.val = 3 :=
  have h := C13_encoding_round_trip pokken 0x200 8 3 (by decide) (by decide) (by decide)
  ⟨h.1, h.2.1, h.2.2.1⟩

/-! ## C14: the button mask is cut to twelve bits -/

/-- C14: a button mask `b` stored in `Instruction.buttons` reads back as `b mod 2 ^ 12`,
so a mask with bit 12 or bit 13 set (`HOME` and `CAPTURE`, the 13th and 14th bits) is
not preserved, and in no report returned on a run from the initial globals is bit 12
or bit 13 of `Button` set; a hat value below 16 is stored without loss. -/
theorem C14_button_truncation (b h d : Nat) :
    (storeInstruction b h d).buttons.val = b % 2 ^ 12
    ∧ (b.testBit 12 = true ∨ b.testBit 13 = true →
        (storeInstruction b h d).buttons.val ≠ b)
    ∧ (∀ (K : Header) (script : List Instruction) (past : Nat → Instruction) (n : Nat),
        (nthReport K script past n init).Button < 2 ^ 12
        ∧ (nthReport K script past n init).Button.testBit 12 = false
        ∧ (nthReport K script past n init).Button.testBit 13 = false)
    ∧ (h < 16 → (storeInstruction b h d).hat.val = h) := by
  refine ⟨rfl, ?_, ?_, fun hh => Nat.mod_eq_of_lt hh⟩
  · intro hbit heq
    have hlt : b < 2 ^ 12 := by
      have hm : (storeInstruction b h d).buttons.val < 2 ^ 12 :=
        (storeInstruction b h d).buttons.isLt
      rw [heq] at hm
      exact hm
    rcases hbit with h12 | h13
    · rw [Nat.testBit_lt_two_pow hlt] at h12
      cases h12
    · rw [Nat.testBit_lt_two_pow (Nat.lt_trans hlt (by decide))] at h13
      cases h13
  · intro K script past n
    have hlt : (nthReport K script past n init).Button < 2 ^ 12 := by
      rcases (computed_reachable K script past n).1 with hc | ⟨ins, hc⟩
      · rw [hc]
        show 0 < 2 ^ 12
        decide
      · rw [hc]
        exact ins.buttons.isLt
    exact ⟨hlt, Nat.testBit_lt_two_pow hlt,
      Nat.testBit_lt_two_pow (Nat.lt_trans hlt (by decide))⟩

/-- Witness of C14: the mask `SWITCH_HOME = 0x1000`, bit 12, is stored as 0. -/
theorem C14_button_truncation_witness :
    Nat.testBit 0x1000 12 = true
    ∧ (storeInstruction 0x1000 8 3).buttons.val ≠ 0x1000
    ∧ (storeInstruction 0x1000 8 3).hat.val = 8 :=
  have h := C14_button_truncation 0x1000 8 3
  ⟨by decide, h.2.1 (Or.inl (by decide)), h.2.2.2 (by decide)⟩

/-! ## C16: the cache and the last returned report -/

/-- After any call, if a replay is pending, the cache holds the report that the call
returned. -/
theorem cache_is_returned (K : Header) (script : List Instruction)
    (past : Nat → Instruction) (s : Playback)
    (h : 0 < (GetNextReport K script past s).1.reps) :
    (GetNextReport K script past s).1.last_report = (GetNextReport K script past s).2 := by
  by_cases hr : 0 < s.reps
  · rw [GetNextReport_replay K script past s hr]
  · cases hst : s.state with
    | SYNC => simp [GetNextReport, hr, hst]
    | WAIT => simp [GetNextReport, hr, hst]
    | RUN =>
      rw [GetNextReport_run K script past s (by omega) hst] at h ⊢
      split_ifs at h ⊢ with h1 h2 h3
      · exact absurd h hr
      · rfl
      · exact absurd h hr
      · rfl

/-- C16: in every state reached from the initial globals `0 ≤ reps ≤ REPS`, and if
`reps > 0` then at least one call has been made and `last_report` equals the report
returned by the most recent call; every returned report is one that a fresh
computation has built (the cleared report or the report of a record), so the
zero-initialised `last_report` is never returned: the returned report differs from
the zero-filled one whenever `STICK_CENTER` is not 0. -/
theorem C16_cache_coherence (K : Header) (script : List Instruction)
    (past : Nat → Instruction) (n : Nat) :
    (runCalls K script past n init).reps ≤ REPS
    ∧ (0 < (runCalls K script past n init).reps →
        ∃ m, n = m + 1
          ∧ (runCalls K script past n init).last_report = nthReport K script past m init)
    ∧ (nthReport K script past n init = clearedReport K
        ∨ ∃ ins, nthReport K script past n init = runReport K ins)
    ∧ (K.STICK_CENTER.val ≠ 0 → nthReport K script past n init ≠ zeroReport) := by
  refine ⟨(counters_bounded K script past n).1, ?_, (computed_reachable K script past n).1, ?_⟩
  · intro h
    cases n with
    | zero => exact absurd h (Nat.lt_irrefl 0)
    | succ m =>
      refine ⟨m, rfl, ?_⟩
      rw [runCalls_succ, nthReport_eq]
      exact cache_is_returned K script past _ h
  · intro hK heq
    have hLX : (nthReport K script past n init).LX = K.STICK_CENTER.val := by
      rcases (computed_reachable K script past n).1 with hc | ⟨ins, hc⟩
      · rw [hc]; rfl
      · rw [hc]; rfl
    rw [heq] at hLX
    exact hK hLX.symm

/-- Witness of C16: the globals after two calls on the table of the repository, while
the replays of the `SYNC` report are pending. -/
theorem C16_cache_coherence_witness :
    0 < (runCalls pokken (script pokken) zeroPast 2 init).reps
    ∧ (∃ m, 2 = m + 1
        ∧ (runCalls pokken (script pokken) zeroPast 2 init).last_report
          = nthReport pokken (script pokken) zeroPast m init)
    ∧ nthReport pokken (script pokken) zeroPast 2 init ≠ zeroReport :=
  have h := C16_cache_coherence pokken (script pokken) zeroPast 2
  ⟨by decide, h.2.1 (by decide), h.2.2.2 (by decide)⟩

/-! ## C15: the call on which the script is exhausted -/

theorem timeUnits_eq_sum (l : List Instruction) :
    timeUnits l = (l.map (fun ins => max ins.duration.val 1)).sum := by
  induction l with
  | nil => rfl
  | cons x l ih => simp [timeUnits, ih]

/-- The last call on the table: after `(REPS + 1) * (1 + timeUnits script)` calls the
cursor still stands on the last instruction, the next call returns the report of
that instruction, and it leaves the cursor at `len(script)` with no replay pending. -/
theorem runCalls_last_call (K : Header) (script : List Instruction)
    (past : Nat → Instruction) (hne : script ≠ []) :
    ∃ last, script.getLast? = some last
      ∧ (runCalls K script past ((REPS + 1) * (1 + timeUnits script)) init).step + 1
          = script.length
      ∧ nthReport K script past ((REPS + 1) * (1 + timeUnits script)) init
          = runReport K last
      ∧ ∃ lr, runCalls K script past ((REPS + 1) * (1 + timeUnits script) + 1) init
          = { state := State_t.RUN, last_report := lr, reps := 0,
              step := script.length, duration := 0 } := by
  have hpos : 0 < script.length := List.length_pos.mpr hne
  obtain ⟨lr, hlr⟩ := runCalls_reach K script past (script.length - 1) (by omega)
  obtain ⟨ins, hi⟩ : ∃ ins, script[script.length - 1]? = some ins :=
    ⟨script.get ⟨script.length - 1, by omega⟩, List.getElem?_eq_getElem (by omega)⟩
  have htu := timeUnits_take_succ script (script.length - 1) ins hi
  rw [show script.length - 1 + 1 = script.length by omega, List.take_length] at htu
  obtain ⟨c1, c2, lr2, c3⟩ := cadence_last K script past (script.length - 1) ins hi
    (by omega) (max ins.duration.val 1 - 1)
    { state := State_t.RUN, last_report := lr, reps := 0, step := script.length - 1,
      duration := 0 }
    rfl rfl rfl (by show 0 + _ = _; omega)
  have hM : (REPS + 1) * (1 + timeUnits script)
      = (10 + 5 * timeUnits (script.take (script.length - 1)))
        + 5 * (max ins.duration.val 1 - 1) := by
    unfold REPS
    omega
  refine ⟨ins, ?_, ?_, ?_, lr2, ?_⟩
  · rw [List.getLast?_eq_getElem?, hi]
  · rw [hM, runCalls_add, hlr, c2 _ (Nat.le_refl _)]
    omega
  · rw [hM, nthReport_add, hlr]
    exact c1 _ (by omega)
  · rw [hM, Nat.add_assoc, runCalls_add, hlr, c3]

/-- C15: for every non-empty script with durations `d_0 .. d_(n-1)`, from the initial
globals, `step` first becomes `len(script)` during call number
`(REPS + 1) * (1 + Σ max(d_k, 1)) + 1`: it is below `len(script)` after every smaller
number of calls. That call is a fresh computation, it returns the report of the last
instruction, and no replay is pending after it, so the last time unit of the last
instruction is returned for one call and not for `REPS + 1` calls. -/
theorem C15_exhaustion_tick (K : Header) (script : List Instruction)
    (past : Nat → Instruction) (hne : script ≠ []) :
    (runCalls K script past
        ((REPS + 1) * (1 + (script.map (fun ins => max ins.duration.val 1)).sum) + 1)
        init).step = script.length
    ∧ (∀ k, k ≤ (REPS + 1) * (1 + (script.map (fun ins => max ins.duration.val 1)).sum) →
        (runCalls K script past k init).step < script.length)
    ∧ (runCalls K script past
        ((REPS + 1) * (1 + (script.map (fun ins => max ins.duration.val 1)).sum))
        init).reps = 0
    ∧ (runCalls K script past
        ((REPS + 1) * (1 + (script.map (fun ins => max ins.duration.val 1)).sum) + 1)
        init).reps = 0
    ∧ ∃ last, script.getLast? = some last
        ∧ nthReport K script past
            ((REPS + 1) * (1 + (script.map (fun ins => max ins.duration.val 1)).sum)) init
          = runReport K last := by
  rw [← timeUnits_eq_sum]
  obtain ⟨last, h1, h2, h3, lr, h4⟩ := runCalls_last_call K script past hne
  have hfresh := step_change_fresh K script past
    (runCalls K script past ((REPS + 1) * (1 + timeUnits script)) init)
    (by rw [← runCalls_succ, h4]; show script.length ≠ _; omega)
  refine ⟨by rw [h4], ?_, hfresh.1, by rw [h4], last, h1, h3⟩
  intro k hk
  obtain ⟨j, hj⟩ : ∃ j, (REPS + 1) * (1 + timeUnits script) = k + j := ⟨_, (Nat.add_sub_cancel' hk).symm⟩
  have hmono := step_mono K script past init k j
  rw [← hj] at hmono
  omega

/-- Witness of C15: the single instruction of duration 3 with `REPS = 4`; `step`
becomes 1, the length of the table, during call 21. -/
theorem C15_exhaustion_tick_witness :
    (runCalls pokken singleScript zeroPast 21 init).step = singleScript.length
    ∧ (∀ k, k ≤ 20 → (runCalls pokken singleScript zeroPast k init).step
        < singleScript.length)
    ∧ (runCalls pokken singleScript zeroPast 20 init).reps = 0
    ∧ (runCalls pokken singleScript zeroPast 21 init).reps = 0 :=
  have h := C15_exhaustion_tick pokken singleScript zeroPast (by decide)
  ⟨h.1, h.2.1, h.2.2.1, h.2.2.2.1⟩

/-! ## C17: a duration of zero counts as one -/

theorem length_replaceZeroAt (j : Nat) (l : List Instruction) :
    (replaceZeroAt j l).length = l.length := by
  induction l generalizing j with
  | nil => cases j <;> rfl
  | cons x l ih =>
    cases j with
    | zero => rfl
    | succ j => simp [replaceZeroAt, ih]

/-- An entry of the changed table is the entry of the table or that entry with its
zero duration replaced. -/
theorem getElem?_replaceZeroAt (j : Nat) (l : List Instruction) (i : Nat) :
    (replaceZeroAt j l)[i]? = l[i]?
      ∨ ∃ ins, l[i]? = some ins ∧ (replaceZeroAt j l)[i]? = some (durationOne ins) := by
  induction l generalizing j i with
  | nil => cases j <;> exact Or.inl rfl
  | cons x l ih =>
    cases j with
    | zero =>
      cases i with
      | zero => exact Or.inr ⟨x, by simp, by simp [replaceZeroAt]⟩
      | succ i => exact Or.inl (by simp [replaceZeroAt])
    | succ j =>
      cases i with
      | zero => exact Or.inl (by simp [replaceZeroAt])
      | succ i =>
        simp only [replaceZeroAt, List.getElem?_cons_succ]
        exact ih j i

theorem readScript_replaceZeroAt (j : Nat) (l : List Instruction) (past : Nat → Instruction)
    (i : Nat) :
    readScript (replaceZeroAt j l) past i = readScript l past i
      ∨ readScript (replaceZeroAt j l) past i = durationOne (readScript l past i) := by
  rcases getElem?_replaceZeroAt j l i with h | ⟨ins, h1, h2⟩
  · left
    unfold readScript
    rw [h, length_replaceZeroAt]
  · right
    rw [readScript_inside _ past i _ h2, readScript_inside l past i ins h1]

theorem runReport_durationOne (K : Header) (ins : Instruction) :
    runReport K (durationOne ins) = runReport K ins := by
  unfold durationOne
  split_ifs <;> rfl

/-- The test of line 306 does not tell a duration of 0 from a duration of 1: the
counter has been incremented before it is compared. -/
theorem reached_durationOne (ins : Instruction) (a : Nat) :
    a + 1 ≥ (durationOne ins).duration.val ↔ a + 1 ≥ ins.duration.val := by
  unfold durationOne
  split_ifs with h
  · show a + 1 ≥ 1 ↔ _
    omega
  · exact Iff.rfl

/-- One call on the changed table does what it does on the table, from any globals. -/
theorem GetNextReport_replaceZeroAt (K : Header) (script : List Instruction)
    (past : Nat → Instruction) (j : Nat) (s : Playback) :
    GetNextReport K (replaceZeroAt j script) past s = GetNextReport K script past s := by
  by_cases hr : 0 < s.reps
  · rw [GetNextReport_replay _ _ _ _ hr, GetNextReport_replay _ _ _ _ hr]
  · cases hst : s.state with
    | SYNC => simp [GetNextReport, hr, hst]
    | WAIT => simp [GetNextReport, hr, hst]
    | RUN =>
      have hrep : runReport K (readScript (replaceZeroAt j script) past s.step)
          = runReport K (readScript script past s.step) := by
        rcases readScript_replaceZeroAt j script past s.step with h | h
        · rw [h]
        · rw [h, runReport_durationOne]
      have hiff : s.duration + 1 ≥ (readScript (replaceZeroAt j script) past s.step).duration.val
          ↔ s.duration + 1 ≥ (readScript script past s.step).duration.val := by
        rcases readScript_replaceZeroAt j script past s.step with h | h
        · rw [h]
        · rw [h]
          exact reached_durationOne _ _
      rw [GetNextReport_run K _ past s (by omega) hst,
        GetNextReport_run K script past s (by omega) hst, length_replaceZeroAt, hrep]
      simp only [hiff]

theorem runCalls_replaceZeroAt (K : Header) (script : List Instruction)
    (past : Nat → Instruction) (j n : Nat) (s : Playback) :
    runCalls K (replaceZeroAt j script) past n s = runCalls K script past n s := by
  induction n with
  | zero => rfl
  | succ n ih => rw [runCalls_succ, runCalls_succ, ih, GetNextReport_replaceZeroAt]

/-- C17: for every script, replacing the duration 0 of an instruction by 1 leaves the
sequence of reports returned by `GetNextReport` and the sequence of `step` values
unchanged, at every call and so for as long as `step < len(script)`; and an instruction
with duration 0 is not skipped: entered at its start, it is returned for `REPS + 1`
calls before the next instruction starts, or for one call if it is the last of the
table. -/
theorem C17_zero_duration_as_one (K : Header) (script : List Instruction)
    (past : Nat → Instruction) (j n : Nat) :
    nthReport K (replaceZeroAt j script) past n init = nthReport K script past n init
    ∧ (runCalls K (replaceZeroAt j script) past n init).step
        = (runCalls K script past n init).step
    ∧ (∀ (i : Nat) (ins : Instruction) (s : Playback),
        script[i]? = some ins → ins.duration.val = 0 →
        s.state = State_t.RUN → s.reps = 0 → s.step = i → s.duration = 0 →
        (i + 1 < script.length →
          (∀ k, k < REPS + 1 → nthReport K script past k s = runReport K ins)
          ∧ runCalls K script past (REPS + 1) s
              = { state := State_t.RUN, last_report := runReport K ins, reps := 0,
                  step := i + 1, duration := 0 })
        ∧ (i + 1 = script.length →
          nthReport K script past 0 s = runReport K ins
          ∧ (runCalls K script past 1 s).step = script.length
          ∧ (runCalls K script past 1 s).reps = 0)) := by
  refine ⟨?_, ?_, ?_⟩
  · rw [nthReport_eq, nthReport_eq, runCalls_replaceZeroAt, GetNextReport_replaceZeroAt]
  · rw [runCalls_replaceZeroAt]
  · intro i ins s hi hd hs hr hstep hdur
    refine ⟨?_, ?_⟩
    · intro hlt
      obtain ⟨a1, _, _, a4, _⟩ := cadence_aux K script past i ins hi hlt 0 s hs hr hstep
        (by omega)
      exact ⟨a1, a4⟩
    · intro hlast
      obtain ⟨c1, _, lr, c3⟩ := cadence_last K script past i ins hi hlast 0 s hs hr hstep
        (by omega)
      refine ⟨c1 0 (by omega), ?_, ?_⟩
      · have := congrArg Playback.step c3
        exact this
      · have := congrArg Playback.reps c3
        exact this

/-- Witness of C17: the table whose first instruction has duration 0, entered by call
11 of the program, and call 13 on the table with that duration replaced by 1. -/
theorem C17_zero_duration_as_one_witness :
    nthReport pokken (replaceZeroAt 0 zeroDurationScript) zeroPast 12 init
      = nthReport pokken zeroDurationScript zeroPast 12 init
    ∧ (∀ k, k < REPS + 1 →
        nthReport pokken zeroDurationScript zeroPast k
            (runCalls pokken zeroDurationScript zeroPast 10 init)
          = runReport pokken { buttons := 0x200, hat := 8, duration := 0 })
    ∧ (runCalls pokken zeroDurationScript zeroPast (REPS + 1)
        (runCalls pokken zeroDurationScript zeroPast 10 init)).step = 1 :=
  have h := C17_zero_duration_as_one pokken zeroDurationScript zeroPast 0 12
  have h2 := (h.2.2 0 { buttons := 0x200, hat := 8, duration := 0 }
    (runCalls pokken zeroDurationScript zeroPast 10 init)
    (by decide) (by decide) (by decide) (by decide) (by decide) (by decide)).1 (by decide)
  ⟨h.1, h2.1, congrArg Playback.step h2.2⟩

/-! ## The two report generators agree below `INT_MAX` -/

theorem runCalls16_succ (K : Header) (script : List Instruction)
    (past front : Nat → Instruction) (n : Nat) (s : Playback16) :
    runCalls16 K script past front (n + 1) s
      = (GetNextReport16 K script past front (runCalls16 K script past front n s)).1 := rfl

theorem nthReport16_eq (K : Header) (script : List Instruction)
    (past front : Nat → Instruction) (n : Nat) (s : Playback16) :
    nthReport16 K script past front n s
      = (GetNextReport16 K script past front (runCalls16 K script past front n s)).2 := rfl

theorem readScript16_natCast (script : List Instruction) (past front : Nat → Instruction)
    (i : Nat) :
    readScript16 script past front (i : Int) = readScript script past i := by
  unfold readScript16
  rw [if_neg (by omega), Int.toNat_ofNat]

theorem incrStep_natCast (i : Nat) (h : i < 32767) :
    incrStep (i : Int) = ((i + 1 : Nat) : Int) := by
  unfold incrStep INT_MAX
  rw [if_neg (by omega)]
  omega

/-- The fresh call of the `RUN` case of `GetNextReport16`, written out. -/
theorem GetNextReport16_run (K : Header) (script : List Instruction)
    (past front : Nat → Instruction) (s : Playback16) (hr : s.reps = 0)
    (hs : s.state = State_t.RUN) :
    GetNextReport16 K script past front s
      = (if (if s.duration + 1 ≥ (readScript16 script past front s.step).duration.val
              then incrStep s.step else s.step) ≥ (script.length : Int)
          then
            ({ s with
                step := if s.duration + 1 ≥ (readScript16 script past front s.step).duration.val
                  then incrStep s.step else s.step,
                duration :=
                  if s.duration + 1 ≥ (readScript16 script past front s.step).duration.val
                  then 0 else s.duration + 1 },
              runReport K (readScript16 script past front s.step))
          else
            ({ s with
                step := if s.duration + 1 ≥ (readScript16 script past front s.step).duration.val
                  then incrStep s.step else s.step,
                duration :=
                  if s.duration + 1 ≥ (readScript16 script past front s.step).duration.val
                  then 0 else s.duration + 1,
                last_report := runReport K (readScript16 script past front s.step),
                reps := REPS },
              runReport K (readScript16 script past front s.step))) := by
  unfold GetNextReport16
  rw [if_neg (by omega), hs]

/-- One call of `GetNextReport16` does what `GetNextReport` does, as long as the call
leaves `step` at `INT_MAX` or below. -/
theorem GetNextReport16_eq (K : Header) (script : List Instruction)
    (past front : Nat → Instruction) (s : Playback)
    (h : (GetNextReport K script past s).1.step ≤ 32767) :
    GetNextReport16 K script past front (toPlayback16 s)
      = (toPlayback16 (GetNextReport K script past s).1, (GetNextReport K script past s).2) := by
  by_cases hr : 0 < s.reps
  · rw [GetNextReport_replay K script past s hr]
    simp [GetNextReport16, toPlayback16, hr]
  · cases hst : s.state with
    | SYNC => simp [GetNextReport, GetNextReport16, toPlayback16, hr, hst]
    | WAIT => simp [GetNextReport, GetNextReport16, toPlayback16, hr, hst]
    | RUN =>
      rw [GetNextReport_run K script past s (by omega) hst] at h ⊢
      rw [GetNextReport16_run K script past front (toPlayback16 s) (by show s.reps = 0; omega)
        hst]
      simp only [toPlayback16, readScript16_natCast]
      by_cases hd : s.duration + 1 ≥ (readScript script past s.step).duration.val
      · simp only [hd, if_true] at h ⊢
        have hlt : s.step < 32767 := by
          split_ifs at h <;> simp at h <;> omega
        rw [incrStep_natCast s.step hlt]
        by_cases hl : s.step + 1 ≥ script.length
        · rw [if_pos hl, if_pos (by omega)]
        · rw [if_neg hl, if_neg (by omega)]
      · simp only [hd, if_false]
        by_cases hl : s.step ≥ script.length
        · rw [if_pos hl, if_pos (by omega)]
        · rw [if_neg hl, if_neg (by omega)]

/-- The report of one call of `GetNextReport16` is the report of `GetNextReport`,
whatever the call does to `step`. -/
theorem GetNextReport16_report (K : Header) (script : List Instruction)
    (past front : Nat → Instruction) (s : Playback) :
    (GetNextReport16 K script past front (toPlayback16 s)).2
      = (GetNextReport K script past s).2 := by
  by_cases hr : 0 < s.reps
  · rw [GetNextReport_replay K script past s hr]
    simp [GetNextReport16, toPlayback16, hr]
  · cases hst : s.state with
    | SYNC => simp [GetNextReport, GetNextReport16, toPlayback16, hr, hst]
    | WAIT => simp [GetNextReport, GetNextReport16, toPlayback16, hr, hst]
    | RUN =>
      rw [GetNextReport_run K script past s (by omega) hst,
        GetNextReport16_run K script past front (toPlayback16 s) (by show s.reps = 0; omega)
          hst]
      simp only [toPlayback16, readScript16_natCast]
      split_ifs <;> rfl

/-- The run of `GetNextReport16` from the initial globals is the run of
`GetNextReport`, as long as `step` is at `INT_MAX` or below. -/
theorem runCalls16_eq (K : Header) (script : List Instruction)
    (past front : Nat → Instruction) (n : Nat)
    (h : (runCalls K script past n init).step ≤ 32767) :
    runCalls16 K script past front n init16 = toPlayback16 (runCalls K script past n init) := by
  induction n with
  | zero => rfl
  | succ n ih =>
    have h1 : (runCalls K script past n init).step ≤ 32767 :=
      Nat.le_trans (step_mono K script past init n 1) h
    rw [runCalls16_succ, ih h1, GetNextReport16_eq K script past front _ h]
    rfl

/-- The reports of the two runs agree as long as the call is entered with `step` at
`INT_MAX` or below. -/
theorem nthReport16_eq_nthReport (K : Header) (script : List Instruction)
    (past front : Nat → Instruction) (n : Nat)
    (h : (runCalls K script past n init).step ≤ 32767) :
    nthReport16 K script past front n init16 = nthReport K script past n init := by
  rw [nthReport16_eq, runCalls16_eq K script past front n h, GetNextReport16_report]
  rfl

/-- One call of `GetNextReport16` keeps `reps` at most `REPS` and `duration` below
255, as `counters_step` says of `GetNextReport`. -/
theorem counters16_step (K : Header) (script : List Instruction)
    (past front : Nat → Instruction) (s : Playback16)
    (h1 : s.reps ≤ REPS) (h2 : s.duration < 255) :
    (GetNextReport16 K script past front s).1.reps ≤ REPS
      ∧ (GetNextReport16 K script past front s).1.duration < 255 := by
  by_cases hr : 0 < s.reps
  · simp only [GetNextReport16, hr, if_true]
    exact ⟨by show s.reps - 1 ≤ REPS; omega, h2⟩
  · cases hst : s.state with
    | SYNC => simp [GetNextReport16, hr, hst, h2]
    | WAIT => simp [GetNextReport16, hr, hst, h2]
    | RUN =>
      rw [GetNextReport16_run K script past front s (by omega) hst]
      have hlt := (readScript16 script past front s.step).duration.isLt
      split_ifs <;> refine ⟨?_, ?_⟩ <;> simp <;> omega

/-- On every run of `GetNextReport16` from the initial globals `reps ≤ REPS` and
`duration < 255`: these two counters do not leave the range of `int`. -/
theorem counters16_bounded (K : Header) (script : List Instruction)
    (past front : Nat → Instruction) (n : Nat) :
    (runCalls16 K script past front n init16).reps ≤ REPS
      ∧ (runCalls16 K script past front n init16).duration < 255 := by
  induction n with
  | zero => exact ⟨Nat.zero_le _, Nat.zero_lt_succ 254⟩
  | succ n ih => exact counters16_step K script past front _ ih.1 ih.2

/-- One call of `GetNextReport16` that is entered with `step` below `INT_MAX` leaves
`step` alone or adds one to it. -/
theorem step16_succ_or_same (K : Header) (script : List Instruction)
    (past front : Nat → Instruction) (s : Playback16) (h : s.step ≠ INT_MAX) :
    (GetNextReport16 K script past front s).1.step = s.step
      ∨ (GetNextReport16 K script past front s).1.step = s.step + 1 := by
  have hi : incrStep s.step = s.step + 1 := by
    unfold incrStep
    rw [if_neg h]
  by_cases hr : 0 < s.reps
  · simp [GetNextReport16, hr]
  · cases hst : s.state with
    | SYNC => simp [GetNextReport16, hr, hst]
    | WAIT => simp [GetNextReport16, hr, hst]
    | RUN =>
      rw [GetNextReport16_run K script past front s (by omega) hst, hi]
      split_ifs <;> simp

/-! ## The cursor runs on to `INT_MAX` -/

/-- With the cursor at `j ≥ len(script)`, the calls before the one that moves it on
change only `duration`, which counts them. -/
theorem runCalls_outside_stay (K : Header) (script : List Instruction)
    (past : Nat → Instruction) (j : Nat) (hj : script.length ≤ j) (n : Nat) (s : Playback)
    (hs : s.state = State_t.RUN) (hr : s.reps = 0) (hstep : s.step = j)
    (hdur : s.duration + (n + 1) = max (past (j - script.length)).duration.val 1) :
    ∀ k, k ≤ n → runCalls K script past k s = { s with duration := s.duration + k } := by
  intro k
  induction k with
  | zero => exact fun _ => rfl
  | succ k ih =>
    intro hk
    have hrd : readScript script past j = past (j - script.length) :=
      readScript_outside script past j hj
    rw [runCalls_succ, ih (by omega),
      GetNextReport_run_outside_stay K script past { s with duration := s.duration + k }
        hr hs (by show script.length ≤ s.step; omega)
        (by show s.duration + k + 1 < (readScript script past s.step).duration.val
            rw [hstep, hrd]; omega)]
    rfl

/-- On a non-empty table the run reaches the start of every index at or behind the
end of the table, after the calls that play the table or more. -/
theorem runCalls_reach_outside (K : Header) (script : List Instruction)
    (past : Nat → Instruction) (hne : script ≠ []) :
    ∀ t, ∃ n lr, (REPS + 1) * (1 + timeUnits script) + 1 ≤ n
      ∧ runCalls K script past n init
        = { state := State_t.RUN, last_report := lr, reps := 0,
            step := script.length + t, duration := 0 } := by
  intro t
  induction t with
  | zero =>
    obtain ⟨lr, h⟩ := runCalls_exhaust K script past hne
    exact ⟨_, lr, Nat.le_refl _, h⟩
  | succ t ih =>
    obtain ⟨n, lr, hn, h⟩ := ih
    have ho := (runCalls_outside K script past (script.length + t) (by omega)
      (max (past (script.length + t - script.length)).duration.val 1 - 1)
      { state := State_t.RUN, last_report := lr, reps := 0,
        step := script.length + t, duration := 0 }
      rfl rfl rfl (by show 0 + _ = _; omega)).2
    refine ⟨n + (max (past (script.length + t - script.length)).duration.val 1 - 1 + 1),
      lr, by omega, ?_⟩
    rw [runCalls_add, h, ho]
    rfl

/-- The call of `GetNextReport16` that increments `step` at `INT_MAX`: `step` wraps to
`INT_MIN`, the test of line 311 fails, and lines 320-321 fill the cache and set
`reps = REPS`. -/
theorem GetNextReport16_overflow (K : Header) (script : List Instruction)
    (past front : Nat → Instruction) (hlen : script.length ≤ 32767)
    (lr : USB_JoystickReport_Input_t) (e : Nat)
    (hd : (past (32767 - script.length)).duration.val ≤ e + 1) :
    GetNextReport16 K script past front
        { state := State_t.RUN, last_report := lr, reps := 0, step := 32767, duration := e }
      = ({ state := State_t.RUN,
           last_report := runReport K (past (32767 - script.length)),
           reps := REPS, step := -32768, duration := 0 },
         runReport K (past (32767 - script.length))) := by
  have hrd : readScript16 script past front (32767 : Int) = past (32767 - script.length) := by
    rw [show (32767 : Int) = ((32767 : Nat) : Int) from rfl, readScript16_natCast,
      readScript_outside script past 32767 hlen]
  have hinc : incrStep 32767 = -32768 := rfl
  rw [GetNextReport16_run K script past front _ rfl rfl]
  simp only [hrd, hinc]
  have h1 : e + 1 ≥ (past (32767 - script.length)).duration.val := hd
  have h2 : ¬ ((-32768 : Int) ≥ (script.length : Int)) := by omega
  simp only [h1, h2, if_true, if_false]

/-- On a non-empty table of at most `INT_MAX` entries, whatever lies behind it, the
run reaches a call that is entered with `step = INT_MAX` and increments it: after that
call `step = INT_MIN`, the cache holds the report of the call and `reps = REPS`. -/
theorem runCalls16_overflow (K : Header) (script : List Instruction)
    (past front : Nat → Instruction) (hne : script ≠ []) (hlen : script.length ≤ 32767) :
    ∃ n lr e, (REPS + 1) * (1 + timeUnits script) + 1 ≤ n
      ∧ runCalls16 K script past front n init16
        = { state := State_t.RUN, last_report := lr, reps := 0, step := 32767, duration := e }
      ∧ runCalls16 K script past front (n + 1) init16
        = { state := State_t.RUN,
            last_report := runReport K (past (32767 - script.length)),
            reps := REPS, step := -32768, duration := 0 } := by
  obtain ⟨n0, lr, hn0, h0⟩ := runCalls_reach_outside K script past hne (32767 - script.length)
  have hj : script.length + (32767 - script.length) = 32767 := by omega
  rw [hj] at h0
  have hstay := runCalls_outside_stay K script past 32767 hlen
    (max (past (32767 - script.length)).duration.val 1 - 1)
    { state := State_t.RUN, last_report := lr, reps := 0, step := 32767, duration := 0 }
    rfl rfl rfl (by show 0 + _ = _; omega)
    (max (past (32767 - script.length)).duration.val 1 - 1) (Nat.le_refl _)
  have h1 : runCalls K script past
      (n0 + (max (past (32767 - script.length)).duration.val 1 - 1)) init
      = { state := State_t.RUN, last_report := lr, reps := 0, step := 32767,
          duration := 0 + (max (past (32767 - script.length)).duration.val 1 - 1) } := by
    rw [runCalls_add, h0, hstay]
  have h16 := runCalls16_eq K script past front
    (n0 + (max (past (32767 - script.length)).duration.val 1 - 1))
    (by rw [h1])
  rw [h1] at h16
  refine ⟨n0 + (max (past (32767 - script.length)).duration.val 1 - 1), lr,
    0 + (max (past (32767 - script.length)).duration.val 1 - 1), by omega, h16, ?_⟩
  rw [runCalls16_succ, h16]
  exact congrArg Prod.fst
    (GetNextReport16_overflow K script past front hlen lr
      (0 + (max (past (32767 - script.length)).duration.val 1 - 1)) (by omega))

/-- The table of the repository with zero bytes behind it: from call 6177 on every
call moves the cursor on by one. -/
theorem script_zero_memory (K : Header) :
    ∃ lr, ∀ k n, n = 6176 + k →
      runCalls K (script K) zeroPast n init
        = { state := State_t.RUN, last_report := lr, reps := 0, step := 44 + k,
            duration := 0 } := by
  obtain ⟨lr, h⟩ := script_exhausted K zeroPast
  refine ⟨lr, fun k => ?_⟩
  induction k with
  | zero =>
    intro n hn
    rw [hn]
    exact h
  | succ k ih =>
    intro n hn
    have hrd : readScript (script K) zeroPast (44 + k) = zeroPast (44 + k - 44) := by
      have := readScript_outside (script K) zeroPast (44 + k)
        (by rw [(script_size K).1]; omega)
      rw [(script_size K).1] at this
      exact this
    rw [hn, ← Nat.add_assoc, runCalls_succ, ih (6176 + k) rfl,
      GetNextReport_run_last K (script K) zeroPast _ rfl rfl
        (by rw [(script_size K).1]; show 44 ≤ 44 + k + 1; omega)
        (by show (readScript (script K) zeroPast (44 + k)).duration.val ≤ 0 + 1
            rw [hrd]
            exact Nat.zero_le _)]
    rfl

/-- The table of the repository with zero bytes behind it: call 38900 is entered with
`step = INT_MAX` and leaves `step = INT_MIN`, the cache filled and `reps = REPS`. -/
theorem script_overflow_zero (K : Header) (front : Nat → Instruction) :
    ∃ lr, runCalls16 K (script K) zeroPast front 38899 init16
        = { state := State_t.RUN, last_report := lr, reps := 0, step := 32767,
            duration := 0 }
      ∧ runCalls16 K (script K) zeroPast front 38900 init16
        = { state := State_t.RUN, last_report := runReport K (zeroPast 32723),
            reps := REPS, step := -32768, duration := 0 } := by
  obtain ⟨lr, h⟩ := script_zero_memory K
  have h1 := h 32723 38899 rfl
  rw [show (44 + 32723 : Nat) = 32767 from rfl] at h1
  have h16 := runCalls16_eq K (script K) zeroPast front 38899 (by rw [h1])
  rw [h1] at h16
  refine ⟨lr, h16, ?_⟩
  rw [show (38900 : Nat) = 38899 + 1 from rfl, runCalls16_succ, h16]
  have ho := GetNextReport16_overflow K (script K) zeroPast front
    (by rw [(script_size K).1]; omega) lr 0 (Nat.zero_le _)
  rw [(script_size K).1] at ho
  exact congrArg Prod.fst ho

theorem GetNextReport16_replay (K : Header) (script : List Instruction)
    (past front : Nat → Instruction) (s : Playback16) (h : 0 < s.reps) :
    GetNextReport16 K script past front s
      = ({ s with reps := s.reps - 1 }, s.last_report) := by
  simp [GetNextReport16, h]

/-- The table of the repository, whatever lies behind it: the globals after 6176
calls of `GetNextReport16`, and a later call that is entered with `step = INT_MAX`
and leaves `step = INT_MIN`, the cache filled and `reps = REPS`. -/
theorem script_overflow (K : Header) (past front : Nat → Instruction) :
    (∃ lr, runCalls16 K (script K) past front 6176 init16
        = { state := State_t.RUN, last_report := lr, reps := 0, step := 44, duration := 0 })
    ∧ ∃ n lr e, 6176 ≤ n
      ∧ runCalls16 K (script K) past front n init16
        = { state := State_t.RUN, last_report := lr, reps := 0, step := 32767, duration := e }
      ∧ runCalls16 K (script K) past front (n + 1) init16
        = { state := State_t.RUN, last_report := runReport K (past 32723),
            reps := REPS, step := -32768, duration := 0 } := by
  constructor
  · obtain ⟨lr, h⟩ := script_exhausted K past
    have h16 := runCalls16_eq K (script K) past front 6176
      (by rw [h]; show (44 : Nat) ≤ 32767; omega)
    rw [h] at h16
    exact ⟨lr, h16⟩
  · obtain ⟨n, lr, e, hn, h1, h2⟩ := runCalls16_overflow K (script K) past front
      (by simp [script]) (by rw [(script_size K).1]; omega)
    rw [(script_size K).2] at hn
    rw [(script_size K).1, show 32767 - 44 = 32723 from rfl] at h2
    exact ⟨n, lr, e, by unfold REPS at hn; omega, h1, h2⟩

/-! ## C7: the cursor at `INT_MAX` -/

/-- C7 fails on the code. On the table of the repository, whatever the constants of
the header and the memory around the table, the run from the initial globals reaches a
call that is entered with `step = INT_MAX = 32767` and increments it at line 307: after
that call `step` is `INT_MIN = -32768`, neither equal to its value before the call nor
one greater. With zero bytes behind the table it is call 38900. -/
theorem C7_cursor_wraps (K : Header) (past front : Nat → Instruction) :
    (∃ n, (runCalls16 K (script K) past front n init16).step = INT_MAX
      ∧ (runCalls16 K (script K) past front (n + 1) init16).step = INT_MIN)
    ∧ (runCalls16 K (script K) zeroPast front 38899 init16).step = INT_MAX
    ∧ (runCalls16 K (script K) zeroPast front 38900 init16).step = INT_MIN
    ∧ INT_MIN < INT_MAX := by
  obtain ⟨n, lr, e, _, h1, h2⟩ := (script_overflow K past front).2
  obtain ⟨lr0, z1, z2⟩ := script_overflow_zero K front
  refine ⟨⟨n, ?_, ?_⟩, ?_, ?_, by decide⟩
  · rw [h1]; rfl
  · rw [h2]; rfl
  · rw [z1]; rfl
  · rw [z2]; rfl

/-! ## C12: the cadence after the overflow -/

/-- C12 fails on the code. On the table of the repository, whatever the constants of
the header and the memory around the table, call 6176 finishes with
`step = 44 = len(script)`, and yet a later call, the one that increments `step` at
`INT_MAX`, finishes with `reps = REPS` and with `last_report` written anew (lines
320-321), and the call after it replays that report. With zero bytes behind the table
these are the calls 38900 and 38901. -/
theorem C12_cadence_resumes (K : Header) (past front : Nat → Instruction) :
    ((script K).length : Int) ≤ (runCalls16 K (script K) past front 6176 init16).step
    ∧ (∃ n, 6176 ≤ n
      ∧ (runCalls16 K (script K) past front (n + 1) init16).reps = REPS
      ∧ (runCalls16 K (script K) past front (n + 1) init16).last_report
          = runReport K (past 32723)
      ∧ nthReport16 K (script K) past front (n + 1) init16 = runReport K (past 32723))
    ∧ (runCalls16 K (script K) zeroPast front 38900 init16).reps = REPS
    ∧ (runCalls16 K (script K) zeroPast front 38900 init16).last_report
        = runReport K (zeroPast 32723)
    ∧ nthReport16 K (script K) zeroPast front 38900 init16
        = runReport K (zeroPast 32723) := by
  obtain ⟨⟨lr6, h6⟩, n, lr, e, hn, _, h2⟩ := script_overflow K past front
  obtain ⟨lr0, _, z2⟩ := script_overflow_zero K front
  refine ⟨?_, ⟨n, hn, ?_, ?_, ?_⟩, ?_, ?_, ?_⟩
  · rw [h6, (script_size K).1]
    show ((44 : Nat) : Int) ≤ 44
    omega
  · rw [h2]
  · rw [h2]
  · rw [nthReport16_eq, h2, GetNextReport16_replay _ _ _ _ _ (by show 0 < REPS; exact Nat.zero_lt_succ 3)]
  · rw [z2]
  · rw [z2]
  · rw [nthReport16_eq, z2, GetNextReport16_replay _ _ _ _ _ (by show 0 < REPS; exact Nat.zero_lt_succ 3)]

end Joystick
